import Mathlib

/-!
Verification of the schema-evolution / migration engine of the To-Do-App
repository (`src/src-tauri/src/db.rs`).

The embedding models the SQLite database visible to `run_migrations` and
`seed_initial_data`:

* a `Table` is a name, an ordered list of column names, and a list of rows
  (each row is identified by its unique-key value when the inserting code
  supplies one, `none` for freshly generated UUID rows whose key is unknown
  but fresh);
* a `Db` is the list of tables plus the set of index names;
* DDL/DML statements (`Stmt`) follow SQLite semantics: `CREATE TABLE` fails
  on an existing table unless `IF NOT EXISTS`, `ALTER TABLE ADD COLUMN`
  fails when the table is missing or the column already exists,
  `CREATE INDEX` fails when the target table is missing, plain `INSERT`
  fails on a duplicate unique-key value while `INSERT OR IGNORE` skips it.

The migrations ledger (`migrations` table, `name TEXT NOT NULL UNIQUE`) is
modelled as an ordinary table whose row keys are the migration names, so the
uniqueness constraint on `name` is the row-key uniqueness check of `INSERT`.

The filesystem visible to `run_migrations` is a directory listing plus a
read function; `fs::read_to_string` failure is `none`.  The bodies of the
migration `.sql` files are not part of the repository snapshot, so they stay
abstract: a body is an arbitrary list of `Stmt`.
-/

namespace TodoDb

/-- One live SQLite table: name, ordered column names, and rows identified by
their unique-key value when known (`none` for anonymous/UUID rows). -/
structure Table where
  name : String
  cols : List String
  rows : List (Option String)
deriving Repr, DecidableEq

/-- The live database: tables plus index names. -/
structure Db where
  tables : List Table
  indexes : List String
deriving Repr, DecidableEq

/-- Find a table by name. -/
def Db.lookup (db : Db) (n : String) : Option Table :=
  db.tables.find? (fun t => t.name == n)

/-- Does a table with this name exist (`SELECT COUNT from sqlite_master`)? -/
def Db.hasTable (db : Db) (n : String) : Bool :=
  (db.lookup n).isSome

/-- Column list of a table (`pragma_table_info`); empty when the table is
missing, matching the pragma returning no rows. -/
def Db.colsOf (db : Db) (n : String) : List String :=
  ((db.lookup n).map Table.cols).getD []

/-- Rows of a table; empty when the table is missing. -/
def Db.rowsOf (db : Db) (n : String) : List (Option String) :=
  ((db.lookup n).map Table.rows).getD []

/-- The known unique-key values present in a table. -/
def Db.rowIds (db : Db) (n : String) : List String :=
  (db.rowsOf n).filterMap id

/-- Apply a function to the table with the given name. -/
def Db.modifyTable (db : Db) (n : String) (f : Table → Table) : Db :=
  { db with tables := db.tables.map (fun t => if t.name == n then f t else t) }

/-- The live schema: tables with their column lists (row data excluded). -/
def schemaOf (db : Db) : List (String × List String) :=
  db.tables.map (fun t => (t.name, t.cols))

/-- The state after appending column `c` to table `n`. -/
def addColState (db : Db) (n c : String) : Db :=
  db.modifyTable n (fun u => { u with cols := u.cols ++ [c] })

/-- The state after appending a row with key `r` to table `n`. -/
def addRowState (db : Db) (n : String) (r : Option String) : Db :=
  db.modifyTable n (fun u => { u with rows := u.rows ++ [r] })

/-- The state after creating a fresh table `n` with columns `cs`. -/
def newTableState (db : Db) (n : String) (cs : List String) : Db :=
  { db with tables := db.tables ++ [⟨n, cs, []⟩] }

/-- The state after creating index `idx`. -/
def addIndexState (db : Db) (idx : String) : Db :=
  { db with indexes := db.indexes ++ [idx] }

/-- `CREATE TABLE [IF NOT EXISTS] n (cs)`. -/
def execCreateTable (db : Db) (ifNotExists : Bool) (n : String)
    (cs : List String) : Except String Db :=
  if db.hasTable n then
    if ifNotExists then .ok db else .error ("table " ++ n ++ " already exists")
  else
    .ok (newTableState db n cs)

/-- `ALTER TABLE n ADD COLUMN c`: fails if the table is missing or the column
already present. -/
def execAddColumn (db : Db) (n c : String) : Except String Db :=
  match db.lookup n with
  | none => .error ("no such table: " ++ n)
  | some t =>
    if t.cols.contains c then .error ("duplicate column name: " ++ c)
    else .ok (addColState db n c)

/-- `CREATE INDEX [IF NOT EXISTS] idx ON tbl (...)`. -/
def execCreateIndex (db : Db) (ifNotExists : Bool) (idx tbl : String) :
    Except String Db :=
  if db.indexes.contains idx then
    if ifNotExists then .ok db else .error ("index " ++ idx ++ " already exists")
  else if db.hasTable tbl then
    .ok (addIndexState db idx)
  else
    .error ("no such table: " ++ tbl)

/-- `INSERT INTO n VALUES (...)` with unique-key value `rid` (when known):
fails when the table is missing or the key already present. -/
def execInsert (db : Db) (n : String) (rid : Option String) : Except String Db :=
  match db.lookup n with
  | none => .error ("no such table: " ++ n)
  | some _ =>
    match rid with
    | some i =>
      if (db.rowIds n).contains i then
        .error ("UNIQUE constraint failed: " ++ i)
      else
        .ok (addRowState db n (some i))
    | none =>
      .ok (addRowState db n none)

/-- `INSERT OR IGNORE INTO n VALUES (...)`: duplicate keys are skipped. -/
def execInsertOrIgnore (db : Db) (n : String) (rid : Option String) :
    Except String Db :=
  match db.lookup n with
  | none => .error ("no such table: " ++ n)
  | some _ =>
    match rid with
    | some i =>
      if (db.rowIds n).contains i then .ok db
      else .ok (addRowState db n (some i))
    | none =>
      .ok (addRowState db n none)

/-- Abstract SQL statement, covering the statement forms the initialization
code executes and that migration bodies may contain. -/
inductive Stmt where
  | createTable (ifNotExists : Bool) (name : String) (cols : List String)
  | addColumn (table col : String)
  | createIndex (ifNotExists : Bool) (idx table : String)
  | insertRow (table : String) (rowId : Option String)
  | insertOrIgnoreRow (table : String) (rowId : Option String)
deriving Repr, DecidableEq

/-- Execute one statement. -/
def execStmt (db : Db) : Stmt → Except String Db
  | .createTable ine n cs => execCreateTable db ine n cs
  | .addColumn n c => execAddColumn db n c
  | .createIndex ine idx tbl => execCreateIndex db ine idx tbl
  | .insertRow n rid => execInsert db n rid
  | .insertOrIgnoreRow n rid => execInsertOrIgnore db n rid

/-- Execute a list of statements in order (`execute_batch`), stopping at the
first failure. -/
def execBatch (db : Db) (l : List Stmt) : Except String Db :=
  l.foldlM execStmt db

/-- Columns of the migrations ledger table (db.rs lines 42-49). -/
def migrationsTableCols : List String := ["id", "name", "applied_at"]

/-- `CREATE TABLE IF NOT EXISTS migrations (...)` — db.rs lines 42-49.  It
never fails, so it is a plain function (see `execCreateTable_migrations`). -/
def ensureLedgerTable (db : Db) : Db :=
  if db.hasTable "migrations" then db
  else newTableState db "migrations" migrationsTableCols

/-- Lexicographic comparison of character lists by code point, the order in
which both SQLite `ORDER BY` and Rust `Vec::sort` arrange the ASCII
migration names. -/
def charListLe : List Char → List Char → Bool
  | [], _ => true
  | _ :: _, [] => false
  | a :: as, b :: bs =>
    if a.val.toNat < b.val.toNat then true
    else if b.val.toNat < a.val.toNat then false
    else charListLe as bs

/-- Lexicographic string comparison (see `strLe_iff_le`: it agrees with the
`≤` order on `String`). -/
def strLe (a b : String) : Bool := charListLe a.data b.data

/-- The sorting relation used for the catalog and the ledger snapshot. -/
def strLeRel (a b : String) : Prop := strLe a b = true

instance : DecidableRel strLeRel := fun a b =>
  inferInstanceAs (Decidable (strLe a b = true))

/-- The applied-migration names: `SELECT name FROM migrations ORDER BY name`
(db.rs lines 52-53). -/
def appliedList (db : Db) : List String :=
  List.insertionSort strLeRel (db.rowIds "migrations")

/-- Filesystem view: the entries of the resolved migrations directory and the
result of reading each file (`none` when `fs::read_to_string` fails).  An
unresolvable or missing directory is the empty listing. -/
structure Fs where
  files : List String
  contents : String → Option (List Stmt)

/-- The suffix strictly after the last dot of a character list, `none` when
there is no dot. -/
def lastDotSuffix : List Char → Option (List Char) → Option (List Char)
  | [], acc => acc
  | c :: rest, acc =>
    lastDotSuffix rest (if c = Char.ofNat 46 then some rest else acc)

/-- Rust `Path::extension()` on a file name: the part after the last dot;
`none` when there is no dot, or when the name is a pure dot-file like
`.sql` (a leading dot does not count as a separator). -/
def extOf (s : String) : Option String :=
  match s.data with
  | [] => none
  | c :: rest =>
    match lastDotSuffix (if c = Char.ofNat 46 then rest else c :: rest) none with
    | none => none
    | some suffix => some (String.mk suffix)

/-- Does the file name carry the `sql` extension (db.rs line 84)? -/
def hasSqlExt (s : String) : Bool := extOf s == some "sql"

/-- The sorted catalog: `.sql` entries of the migrations directory, sorted
ascending (db.rs lines 78-93: collect then `sort`). -/
def migrationFiles (fs : Fs) : List String :=
  List.insertionSort strLeRel (fs.files.filter hasSqlExt)

/-- The guarded `ALTER TABLE tbl ADD COLUMN c` pattern of db.rs: the column
list `snapshot` is read once via `pragma_table_info`, and each listed column
is added only when the snapshot lacks it. -/
def guardedAddCols (snapshot : List String) (tbl : String) :
    List String → Db → Except String Db
  | [], db => .ok db
  | c :: cs, db =>
    (if !(snapshot.contains c) then execAddColumn db tbl c else .ok db) >>=
      guardedAddCols snapshot tbl cs

/-- Special-cased body of `0004_add_recurrence.sql` (db.rs lines 104-125):
read the current `tasks` columns once, then add only the missing ones. -/
def execRecurrenceUnit (db : Db) : Except String Db :=
  guardedAddCols (db.colsOf "tasks") "tasks"
    ["recurrence_type", "recurrence_interval", "recurrence_parent_id"] db

/-- Special-cased body of `0008_add_attachment_size.sql` (db.rs lines
126-135). -/
def execAttachmentSizeUnit (db : Db) : Except String Db :=
  guardedAddCols (db.colsOf "attachments") "attachments" ["size"] db

/-- The unconditional `notification_schedule` batch of migration 0006
(db.rs lines 155-166). -/
def notificationScheduleBatch : List Stmt :=
  [ .createTable true "notification_schedule"
      ["id", "task_id", "scheduled_at", "snooze_until", "created_at"],
    .createIndex true "idx_notification_schedule_scheduled_at" "notification_schedule",
    .createIndex true "idx_notification_schedule_task_id" "notification_schedule" ]

/-- Special-cased body of `0006_add_notification_preferences.sql` (db.rs
lines 136-166). -/
def execNotificationUnit (db : Db) : Except String Db :=
  guardedAddCols (db.colsOf "tasks") "tasks"
    ["reminder_minutes_before", "notification_repeat"] db >>= fun db1 =>
  execBatch db1 notificationScheduleBatch

/-- Execute one migration unit inside its transaction: the three special-cased
names ignore the file body; every other unit runs its body as a batch
(db.rs lines 104-170). -/
def execUnit (db : Db) (name : String) (body : List Stmt) : Except String Db :=
  if name = "0004_add_recurrence.sql" then execRecurrenceUnit db
  else if name = "0008_add_attachment_size.sql" then execAttachmentSizeUnit db
  else if name = "0006_add_notification_preferences.sql" then execNotificationUnit db
  else execBatch db body

/-- The whole transaction for one pending unit: unit body, then the ledger
`INSERT INTO migrations (name, applied_at)` (db.rs lines 102-182); commit is
the `.ok` result, any failure rolls the transaction back. -/
def txMigration (db : Db) (file : String) (body : List Stmt) : Except String Db :=
  execUnit db file body >>= fun db1 =>
  execInsert db1 "migrations" (some file)

/-- Loop body for one catalog file (db.rs lines 97-183): skip if already in
the applied snapshot; skip silently if `fs::read_to_string` fails
(`if let Ok(sql) = ...`); otherwise run the transaction, keeping the prior
state on failure (rollback). -/
def stepUnit (contents : String → Option (List Stmt)) (applied : List String)
    (db : Db) (file : String) : Db × Option String :=
  if applied.contains file then (db, none)
  else
    match contents file with
    | none => (db, none)
    | some body =>
      match txMigration db file body with
      | .error e => (db, some e)
      | .ok db2 => (db2, none)

/-- The pending-migration loop (db.rs lines 96-186): process files in order,
stopping with the committed state at the first failing transaction. -/
def applyLoop (contents : String → Option (List Stmt)) (applied : List String) :
    Db → List String → Db × Option String
  | db, [] => (db, none)
  | db, f :: rest =>
    match stepUnit contents applied db f with
    | (db2, none) => applyLoop contents applied db2 rest
    | (db2, some e) => (db2, some e)

/-- Baseline columns of the `attachments` table (db.rs lines 209-218). -/
def attachmentsBaseCols : List String :=
  ["id", "task_id", "filename", "path", "mime", "size", "created_at"]

/-- Defensive reconciliation of the `attachments` table (db.rs lines
188-222): add the `size` column when the table exists without it, create the
table (with its index) when it is missing. -/
def reconAttachments (db : Db) : Except String Db :=
  if db.hasTable "attachments" then
    if (db.colsOf "attachments").contains "size" then .ok db
    else execAddColumn db "attachments" "size"
  else
    execBatch db
      [ .createTable true "attachments" attachmentsBaseCols,
        .createIndex true "idx_attachments_task_id" "attachments" ]

/-- Columns of the `task_templates` table (db.rs lines 280-290). -/
def taskTemplatesCols : List String :=
  ["id", "name", "title", "description", "priority", "project_id",
   "created_at", "updated_at"]

/-- The `task_templates` fallback batch (db.rs lines 279-293). -/
def taskTemplatesBatch : List Stmt :=
  [ .createTable true "task_templates" taskTemplatesCols,
    .createIndex true "idx_templates_name" "task_templates",
    .createIndex true "idx_templates_created" "task_templates" ]

/-- Columns of the `user_progress` table (db.rs lines 310-319). -/
def userProgressCols : List String :=
  ["id", "total_xp", "current_level", "current_streak", "longest_streak",
   "last_completion_date", "created_at", "updated_at"]

/-- Columns of the `badges` table (db.rs lines 320-327). -/
def badgesCols : List String :=
  ["id", "user_id", "badge_type", "earned_at", "metadata"]

/-- Columns of the `xp_history` table (db.rs lines 328-337). -/
def xpHistoryCols : List String :=
  ["id", "user_id", "xp_amount", "source", "task_id", "created_at"]

/-- The gamification fallback batch (db.rs lines 309-343). -/
def gamificationBatch : List Stmt :=
  [ .createTable true "user_progress" userProgressCols,
    .createTable true "badges" badgesCols,
    .createTable true "xp_history" xpHistoryCols,
    .createIndex true "idx_badges_user_id" "badges",
    .createIndex true "idx_badges_badge_type" "badges",
    .createIndex true "idx_xp_history_user_id" "xp_history",
    .createIndex true "idx_xp_history_created_at" "xp_history",
    .createIndex true "idx_xp_history_source" "xp_history" ]

/-- The tasks-gated part of the defensive reconciler (db.rs lines 232-351):
the `columns` snapshot is read once and drives all five column guards; then
the `task_templates` and gamification fallbacks, the latter seeding the
`default` user-progress row via `INSERT OR IGNORE`. -/
def reconCriticalCols : List String :=
  ["recurrence_type", "recurrence_interval", "recurrence_parent_id",
   "reminder_minutes_before", "notification_repeat"]

def reconTasks (db : Db) : Except String Db :=
  guardedAddCols (db.colsOf "tasks") "tasks" reconCriticalCols db >>= fun db1 =>
  (if !(db1.hasTable "task_templates") then execBatch db1 taskTemplatesBatch
   else .ok db1) >>= fun db2 =>
  (if !(db2.hasTable "user_progress") then
    execBatch db2 gamificationBatch >>= fun db3 =>
    execInsertOrIgnore db3 "user_progress" (some "default")
   else .ok db2)

/-- Columns of the `projects` table (db.rs lines 357-363). -/
def projectsCols : List String :=
  ["id", "name", "color", "created_at", "updated_at"]

/-- Columns of the `tasks` table as created by the bootstrap fallback
(db.rs lines 364-382). -/
def bootstrapTasksCols : List String :=
  ["id", "title", "description", "due_at", "created_at", "updated_at",
   "priority", "completed_at", "project_id", "order_index", "metadata",
   "recurrence_type", "recurrence_interval", "recurrence_parent_id",
   "reminder_minutes_before", "notification_repeat"]

/-- Columns of the `settings` table (db.rs lines 383-386). -/
def settingsCols : List String := ["key", "value"]

/-- Columns of the `subtasks` table (db.rs lines 387-393). -/
def subtasksCols : List String := ["id", "task_id", "title", "completed"]

/-- The bootstrap fallback batch (db.rs lines 356-419). -/
def bootstrapBatch : List Stmt :=
  [ .createTable true "projects" projectsCols,
    .createTable true "tasks" bootstrapTasksCols,
    .createTable true "settings" settingsCols,
    .createTable true "subtasks" subtasksCols,
    .createTable true "attachments" attachmentsBaseCols,
    .createIndex true "idx_tasks_project_id" "tasks",
    .createIndex true "idx_tasks_due_at" "tasks",
    .createIndex true "idx_tasks_completed_at" "tasks",
    .createTable true "task_templates" taskTemplatesCols,
    .createIndex true "idx_templates_name" "task_templates",
    .createIndex true "idx_templates_created" "task_templates" ]

/-- The whole of `run_migrations` (db.rs lines 40-424): ensure the ledger
table, snapshot the applied names, list and sort the catalog, run the pending
loop, then the attachments reconciler, then (when `tasks` exists at the line
226 check) the tasks-gated reconciler, then the bootstrap fallback gated on
that same `tasks` check and the applied snapshot being empty. -/
def runMigrations (fs : Fs) (db0 : Db) : Except String Db :=
  (match applyLoop fs.contents (appliedList (ensureLedgerTable db0))
      (ensureLedgerTable db0) (migrationFiles fs) with
   | (_, some e) => .error e
   | (db2, none) => .ok db2) >>= fun db2 =>
  reconAttachments db2 >>= fun db3 =>
  (if db3.hasTable "tasks" then reconTasks db3 else .ok db3) >>= fun db4 =>
  (if !db3.hasTable "tasks" && (appliedList (ensureLedgerTable db0)).isEmpty
   then execBatch db4 bootstrapBatch
   else .ok db4)

/-- `seed_initial_data` (db.rs lines 426-488): skip when `tasks` is missing
or non-empty, otherwise insert the five mock rows (UUID keys, hence
anonymous) in one transaction. -/
def seedInitialData (db : Db) : Except String Db :=
  if !(db.hasTable "tasks") then .ok db
  else if decide (0 < (db.rowsOf "tasks").length) then .ok db
  else execBatch db (List.replicate 5 (.insertRow "tasks" none))

/-- `init_db` (db.rs lines 17-38), restricted to its database effects:
migrations then seeding. -/
def initDb (fs : Fs) (db0 : Db) : Except String Db :=
  runMigrations fs db0 >>= seedInitialData

/-- A fresh, empty database file. -/
def emptyDb : Db := ⟨[], []⟩

/-- An unresolvable or empty migrations directory (empty catalog). -/
def emptyFs : Fs := ⟨[], fun _ => none⟩

/-! ### Lookup and state-transformer lemmas -/

theorem find?_modify_self (l : List Table) (n : String) (f : Table → Table)
    (hf : ∀ t, (f t).name = t.name) :
    (l.map (fun t => if t.name == n then f t else t)).find? (fun t => t.name == n)
      = (l.find? (fun t => t.name == n)).map f := by
  induction l with
  | nil => rfl
  | cons t ts ih =>
    rw [List.map_cons]
    by_cases h : t.name = n
    · have hd : (if (t.name == n) = true then f t else t) = f t := by simp [h]
      rw [hd, List.find?_cons_of_pos _ (by simp [hf, h]),
        List.find?_cons_of_pos _ (by simp [h])]
      rfl
    · have hd : (if (t.name == n) = true then f t else t) = t := by simp [h]
      rw [hd, List.find?_cons_of_neg _ (by simp [h]),
        List.find?_cons_of_neg _ (by simp [h]), ih]

theorem find?_modify_ne (l : List Table) (n m : String) (f : Table → Table)
    (hf : ∀ t, (f t).name = t.name) (hnm : n ≠ m) :
    (l.map (fun t => if t.name == n then f t else t)).find? (fun t => t.name == m)
      = l.find? (fun t => t.name == m) := by
  induction l with
  | nil => rfl
  | cons t ts ih =>
    rw [List.map_cons]
    by_cases h : t.name = n
    · have hm : ¬ t.name = m := by rw [h]; exact hnm
      have hd : (if (t.name == n) = true then f t else t) = f t := by simp [h]
      rw [hd, List.find?_cons_of_neg _ (by simp [hf, hm]),
        List.find?_cons_of_neg _ (by simp [hm]), ih]
    · have hd : (if (t.name == n) = true then f t else t) = t := by simp [h]
      by_cases hm : t.name = m
      · rw [hd, List.find?_cons_of_pos _ (by simp [hm]),
          List.find?_cons_of_pos _ (by simp [hm])]
      · rw [hd, List.find?_cons_of_neg _ (by simp [hm]),
          List.find?_cons_of_neg _ (by simp [hm]), ih]

theorem lookup_modifyTable_self (db : Db) (n : String) (f : Table → Table)
    (hf : ∀ t, (f t).name = t.name) :
    (db.modifyTable n f).lookup n = (db.lookup n).map f :=
  find?_modify_self db.tables n f hf

theorem lookup_modifyTable_ne (db : Db) (n m : String) (f : Table → Table)
    (hf : ∀ t, (f t).name = t.name) (hnm : n ≠ m) :
    (db.modifyTable n f).lookup m = db.lookup m :=
  find?_modify_ne db.tables n m f hf hnm

theorem hasTable_modifyTable (db : Db) (n m : String) (f : Table → Table)
    (hf : ∀ t, (f t).name = t.name) :
    (db.modifyTable n f).hasTable m = db.hasTable m := by
  by_cases h : n = m
  · subst h
    unfold Db.hasTable
    rw [lookup_modifyTable_self db n f hf]
    cases db.lookup n <;> rfl
  · unfold Db.hasTable
    rw [lookup_modifyTable_ne db n m f hf h]

theorem modifyTable_of_not_has (db : Db) (n : String) (f : Table → Table)
    (h : db.hasTable n = false) : db.modifyTable n f = db := by
  have hnone : db.tables.find? (fun t => t.name == n) = none := by
    unfold Db.hasTable Db.lookup at h
    cases hl : db.tables.find? (fun t => t.name == n)
    · rfl
    · rw [hl] at h; simp at h
  have hall := List.find?_eq_none.mp hnone
  unfold Db.modifyTable
  have : db.tables.map (fun t => if t.name == n then f t else t) = db.tables := by
    have := List.map_congr_left (l := db.tables)
      (f := fun t => if t.name == n then f t else t) (g := id) (fun t ht => by
        have hb := hall t ht
        simp only [Bool.not_eq_true] at hb
        simp [hb])
    rw [this, List.map_id]
  rw [this]

/-! #### addColState observables -/

theorem hasTable_addColState (db : Db) (n c m : String) :
    (addColState db n c).hasTable m = db.hasTable m :=
  hasTable_modifyTable db n m _ (fun _ => rfl)

theorem colsOf_addColState_self (db : Db) (n c : String) (h : db.hasTable n = true) :
    (addColState db n c).colsOf n = db.colsOf n ++ [c] := by
  unfold Db.colsOf addColState
  rw [lookup_modifyTable_self db n (fun u => { u with cols := u.cols ++ [c] }) (fun _ => rfl)]
  unfold Db.hasTable at h
  cases hl : db.lookup n
  · rw [hl] at h; simp at h
  · simp

theorem colsOf_addColState_ne (db : Db) (n c m : String) (hnm : n ≠ m) :
    (addColState db n c).colsOf m = db.colsOf m := by
  unfold Db.colsOf addColState
  rw [lookup_modifyTable_ne db n m (fun u => { u with cols := u.cols ++ [c] }) (fun _ => rfl) hnm]

theorem rowsOf_addColState (db : Db) (n c m : String) :
    (addColState db n c).rowsOf m = db.rowsOf m := by
  by_cases h : n = m
  · subst h
    unfold Db.rowsOf addColState
    rw [lookup_modifyTable_self db n (fun u => { u with cols := u.cols ++ [c] }) (fun _ => rfl)]
    cases db.lookup n <;> simp
  · unfold Db.rowsOf addColState
    rw [lookup_modifyTable_ne db n m (fun u => { u with cols := u.cols ++ [c] }) (fun _ => rfl) h]

theorem rowIds_addColState (db : Db) (n c m : String) :
    (addColState db n c).rowIds m = db.rowIds m := by
  unfold Db.rowIds
  rw [rowsOf_addColState]

theorem indexes_addColState (db : Db) (n c : String) :
    (addColState db n c).indexes = db.indexes := rfl

/-! #### addRowState observables -/

theorem hasTable_addRowState (db : Db) (n : String) (r : Option String) (m : String) :
    (addRowState db n r).hasTable m = db.hasTable m :=
  hasTable_modifyTable db n m _ (fun _ => rfl)

theorem colsOf_addRowState (db : Db) (n : String) (r : Option String) (m : String) :
    (addRowState db n r).colsOf m = db.colsOf m := by
  by_cases h : n = m
  · subst h
    unfold Db.colsOf addRowState
    rw [lookup_modifyTable_self db n (fun u => { u with rows := u.rows ++ [r] }) (fun _ => rfl)]
    cases db.lookup n <;> simp
  · unfold Db.colsOf addRowState
    rw [lookup_modifyTable_ne db n m (fun u => { u with rows := u.rows ++ [r] }) (fun _ => rfl) h]

theorem rowsOf_addRowState_self (db : Db) (n : String) (r : Option String)
    (h : db.hasTable n = true) :
    (addRowState db n r).rowsOf n = db.rowsOf n ++ [r] := by
  unfold Db.rowsOf addRowState
  rw [lookup_modifyTable_self db n (fun u => { u with rows := u.rows ++ [r] }) (fun _ => rfl)]
  unfold Db.hasTable at h
  cases hl : db.lookup n
  · rw [hl] at h; simp at h
  · simp

theorem rowsOf_addRowState_ne (db : Db) (n : String) (r : Option String) (m : String)
    (hnm : n ≠ m) : (addRowState db n r).rowsOf m = db.rowsOf m := by
  unfold Db.rowsOf addRowState
  rw [lookup_modifyTable_ne db n m (fun u => { u with rows := u.rows ++ [r] }) (fun _ => rfl) hnm]

theorem rowIds_addRowState_self (db : Db) (n : String) (r : Option String)
    (h : db.hasTable n = true) :
    (addRowState db n r).rowIds n = db.rowIds n ++ r.toList := by
  unfold Db.rowIds
  rw [rowsOf_addRowState_self db n r h, List.filterMap_append]
  cases r <;> simp

theorem rowIds_addRowState_ne (db : Db) (n : String) (r : Option String) (m : String)
    (hnm : n ≠ m) : (addRowState db n r).rowIds m = db.rowIds m := by
  unfold Db.rowIds
  rw [rowsOf_addRowState_ne db n r m hnm]

theorem indexes_addRowState (db : Db) (n : String) (r : Option String) :
    (addRowState db n r).indexes = db.indexes := rfl

/-! #### newTableState observables -/

theorem lookup_newTableState (db : Db) (n : String) (cs : List String) (m : String) :
    (newTableState db n cs).lookup m
      = (db.lookup m).or (if n == m then some ⟨n, cs, []⟩ else none) := by
  unfold Db.lookup newTableState
  rw [List.find?_append]
  by_cases h : n = m <;> simp [h]

theorem hasTable_newTableState (db : Db) (n : String) (cs : List String) (m : String) :
    (newTableState db n cs).hasTable m = (db.hasTable m || n == m) := by
  unfold Db.hasTable
  rw [lookup_newTableState]
  cases db.lookup m
  · by_cases h : n = m <;> simp [h]
  · simp

theorem colsOf_newTableState_of_has (db : Db) (n : String) (cs : List String)
    (m : String) (h : db.hasTable m = true) :
    (newTableState db n cs).colsOf m = db.colsOf m := by
  unfold Db.colsOf
  rw [lookup_newTableState]
  unfold Db.hasTable at h
  cases hl : db.lookup m
  · rw [hl] at h; simp at h
  · simp

theorem colsOf_newTableState_self (db : Db) (n : String) (cs : List String)
    (h : db.hasTable n = false) :
    (newTableState db n cs).colsOf n = cs := by
  unfold Db.colsOf
  rw [lookup_newTableState]
  unfold Db.hasTable at h
  cases hl : db.lookup n
  · simp
  · rw [hl] at h; simp at h

theorem colsOf_newTableState_ne (db : Db) (n : String) (cs : List String) (m : String)
    (hnm : n ≠ m) : (newTableState db n cs).colsOf m = db.colsOf m := by
  unfold Db.colsOf
  rw [lookup_newTableState]
  cases db.lookup m <;> simp [hnm]

theorem rowsOf_newTableState_of_has (db : Db) (n : String) (cs : List String)
    (m : String) (h : db.hasTable m = true) :
    (newTableState db n cs).rowsOf m = db.rowsOf m := by
  unfold Db.rowsOf
  rw [lookup_newTableState]
  unfold Db.hasTable at h
  cases hl : db.lookup m
  · rw [hl] at h; simp at h
  · simp

theorem rowsOf_newTableState_self (db : Db) (n : String) (cs : List String)
    (h : db.hasTable n = false) :
    (newTableState db n cs).rowsOf n = [] := by
  unfold Db.rowsOf
  rw [lookup_newTableState]
  unfold Db.hasTable at h
  cases hl : db.lookup n
  · simp
  · rw [hl] at h; simp at h

theorem rowsOf_newTableState_ne (db : Db) (n : String) (cs : List String) (m : String)
    (hnm : n ≠ m) : (newTableState db n cs).rowsOf m = db.rowsOf m := by
  unfold Db.rowsOf
  rw [lookup_newTableState]
  cases db.lookup m <;> simp [hnm]

theorem rowIds_newTableState_of_has (db : Db) (n : String) (cs : List String)
    (m : String) (h : db.hasTable m = true) :
    (newTableState db n cs).rowIds m = db.rowIds m := by
  unfold Db.rowIds
  rw [rowsOf_newTableState_of_has db n cs m h]

theorem rowIds_newTableState_self (db : Db) (n : String) (cs : List String)
    (h : db.hasTable n = false) :
    (newTableState db n cs).rowIds n = [] := by
  unfold Db.rowIds
  rw [rowsOf_newTableState_self db n cs h]
  rfl

theorem rowIds_newTableState_ne (db : Db) (n : String) (cs : List String) (m : String)
    (hnm : n ≠ m) : (newTableState db n cs).rowIds m = db.rowIds m := by
  unfold Db.rowIds
  rw [rowsOf_newTableState_ne db n cs m hnm]

theorem indexes_newTableState (db : Db) (n : String) (cs : List String) :
    (newTableState db n cs).indexes = db.indexes := rfl

/-! #### addIndexState observables -/

theorem hasTable_addIndexState (db : Db) (idx m : String) :
    (addIndexState db idx).hasTable m = db.hasTable m := rfl

theorem colsOf_addIndexState (db : Db) (idx m : String) :
    (addIndexState db idx).colsOf m = db.colsOf m := rfl

theorem rowsOf_addIndexState (db : Db) (idx m : String) :
    (addIndexState db idx).rowsOf m = db.rowsOf m := rfl

theorem rowIds_addIndexState (db : Db) (idx m : String) :
    (addIndexState db idx).rowIds m = db.rowIds m := rfl

/-! ### Equation lemmas for the execution primitives -/

theorem lookup_isSome_of_hasTable (db : Db) (n : String) (h : db.hasTable n = true) :
    ∃ t, db.lookup n = some t ∧ t.cols = db.colsOf n ∧ t.rows = db.rowsOf n := by
  unfold Db.hasTable at h
  cases hl : db.lookup n
  · rw [hl] at h; simp at h
  · exact ⟨_, rfl, by simp [Db.colsOf, hl], by simp [Db.rowsOf, hl]⟩

theorem lookup_eq_none_of_not_has (db : Db) (n : String) (h : db.hasTable n = false) :
    db.lookup n = none := by
  unfold Db.hasTable at h
  cases hl : db.lookup n
  · rfl
  · rw [hl] at h; simp at h

theorem execCreateTable_of_has (db : Db) (n : String) (cs : List String)
    (h : db.hasTable n = true) : execCreateTable db true n cs = .ok db := by
  simp [execCreateTable, h]

theorem execCreateTable_of_not (db : Db) (n : String) (cs : List String)
    (h : db.hasTable n = false) :
    execCreateTable db true n cs = .ok (newTableState db n cs) := by
  simp [execCreateTable, h]

theorem execAddColumn_of_missing (db : Db) (n c : String)
    (h : db.hasTable n = false) :
    execAddColumn db n c = .error ("no such table: " ++ n) := by
  rw [execAddColumn, lookup_eq_none_of_not_has db n h]

theorem execAddColumn_of_mem (db : Db) (n c : String) (h1 : db.hasTable n = true)
    (h2 : (db.colsOf n).contains c = true) :
    execAddColumn db n c = .error ("duplicate column name: " ++ c) := by
  obtain ⟨t, hl, hc, hr⟩ := lookup_isSome_of_hasTable db n h1
  rw [execAddColumn, hl]
  have h2m : c ∈ t.cols := by rw [hc]; simpa using h2
  simp [h2m]

theorem execAddColumn_of_ok (db : Db) (n c : String) (h1 : db.hasTable n = true)
    (h2 : (db.colsOf n).contains c = false) :
    execAddColumn db n c = .ok (addColState db n c) := by
  obtain ⟨t, hl, hc, hr⟩ := lookup_isSome_of_hasTable db n h1
  rw [execAddColumn, hl]
  have h2m : c ∉ t.cols := by rw [hc]; simpa using h2
  simp [h2m]

theorem execCreateIndex_of_mem (db : Db) (idx tbl : String)
    (h : db.indexes.contains idx = true) :
    execCreateIndex db true idx tbl = .ok db := by
  have hm : idx ∈ db.indexes := by simpa using h
  simp [execCreateIndex, hm]

theorem execCreateIndex_of_ok (db : Db) (idx tbl : String)
    (h1 : db.indexes.contains idx = false) (h2 : db.hasTable tbl = true) :
    execCreateIndex db true idx tbl = .ok (addIndexState db idx) := by
  have hm : idx ∉ db.indexes := by simpa using h1
  simp [execCreateIndex, hm, h2]

theorem execInsert_of_ok_some (db : Db) (n i : String) (h1 : db.hasTable n = true)
    (h2 : (db.rowIds n).contains i = false) :
    execInsert db n (some i) = .ok (addRowState db n (some i)) := by
  obtain ⟨t, hl, _, _⟩ := lookup_isSome_of_hasTable db n h1
  rw [execInsert, hl]
  have hm : i ∉ db.rowIds n := by simpa using h2
  simp [hm]

theorem execInsert_of_dup (db : Db) (n i : String) (h1 : db.hasTable n = true)
    (h2 : (db.rowIds n).contains i = true) :
    execInsert db n (some i) = .error ("UNIQUE constraint failed: " ++ i) := by
  obtain ⟨t, hl, _, _⟩ := lookup_isSome_of_hasTable db n h1
  rw [execInsert, hl]
  have hm : i ∈ db.rowIds n := by simpa using h2
  simp [hm]

theorem execInsert_of_none (db : Db) (n : String) (h1 : db.hasTable n = true) :
    execInsert db n none = .ok (addRowState db n none) := by
  obtain ⟨t, hl, _, _⟩ := lookup_isSome_of_hasTable db n h1
  rw [execInsert.eq_def, hl]

theorem execInsert_of_missing (db : Db) (n : String) (rid : Option String)
    (h : db.hasTable n = false) :
    execInsert db n rid = .error ("no such table: " ++ n) := by
  rw [execInsert.eq_def, lookup_eq_none_of_not_has db n h]

theorem execInsertOrIgnore_of_dup (db : Db) (n i : String)
    (h1 : db.hasTable n = true) (h2 : (db.rowIds n).contains i = true) :
    execInsertOrIgnore db n (some i) = .ok db := by
  obtain ⟨t, hl, _, _⟩ := lookup_isSome_of_hasTable db n h1
  rw [execInsertOrIgnore, hl]
  have hm : i ∈ db.rowIds n := by simpa using h2
  simp [hm]

theorem execInsertOrIgnore_of_ok_some (db : Db) (n i : String)
    (h1 : db.hasTable n = true) (h2 : (db.rowIds n).contains i = false) :
    execInsertOrIgnore db n (some i) = .ok (addRowState db n (some i)) := by
  obtain ⟨t, hl, _, _⟩ := lookup_isSome_of_hasTable db n h1
  rw [execInsertOrIgnore, hl]
  have hm : i ∉ db.rowIds n := by simpa using h2
  simp [hm]

theorem execBatch_nil (db : Db) : execBatch db [] = .ok db := rfl

theorem execBatch_cons (db : Db) (s : Stmt) (l : List Stmt) :
    execBatch db (s :: l)
      = match execStmt db s with
        | .ok db2 => execBatch db2 l
        | .error e => .error e := by
  rw [execBatch, List.foldlM_cons]
  cases execStmt db s <;> rfl

theorem ensureLedgerTable_of_has (db : Db) (h : db.hasTable "migrations" = true) :
    ensureLedgerTable db = db := by
  simp [ensureLedgerTable, h]

theorem ensureLedgerTable_of_not (db : Db) (h : db.hasTable "migrations" = false) :
    ensureLedgerTable db = newTableState db "migrations" migrationsTableCols := by
  simp [ensureLedgerTable, h]

theorem execCreateTable_migrations (db : Db) :
    execCreateTable db true "migrations" migrationsTableCols
      = .ok (ensureLedgerTable db) := by
  cases h : db.hasTable "migrations"
  · rw [execCreateTable_of_not db _ _ h, ensureLedgerTable_of_not db h]
  · rw [execCreateTable_of_has db _ _ h, ensureLedgerTable_of_has db h]

theorem hasTable_ensureLedgerTable (db : Db) :
    (ensureLedgerTable db).hasTable "migrations" = true := by
  cases h : db.hasTable "migrations"
  · rw [ensureLedgerTable_of_not db h, hasTable_newTableState]
    simp
  · rw [ensureLedgerTable_of_has db h]
    exact h

/-! ### Monotonicity: a database only ever grows -/

/-- The growth order: every table's columns and rows are only appended to,
appended row keys are fresh and mutually distinct, and tables are never
dropped. -/
structure Db.Le (d1 d2 : Db) : Prop where
  ht : ∀ n, d1.hasTable n = true → d2.hasTable n = true
  cols : ∀ n, ∃ l, d2.colsOf n = d1.colsOf n ++ l
  rows : ∀ n, ∃ l, d2.rowsOf n = d1.rowsOf n ++ l ∧ (l.filterMap id).Nodup ∧
      ∀ i ∈ l.filterMap id, i ∉ d1.rowIds n

theorem Db.Le.refl (d : Db) : d.Le d :=
  ⟨fun _ h => h, fun _ => ⟨[], by simp⟩, fun _ => ⟨[], by simp⟩⟩

theorem rowIds_append_of_le (d1 d2 : Db) (h : d1.Le d2) (n : String) :
    ∃ l, d2.rowIds n = d1.rowIds n ++ l ∧ l.Nodup ∧ ∀ i ∈ l, i ∉ d1.rowIds n := by
  obtain ⟨l, hl, hnd, hfresh⟩ := h.rows n
  refine ⟨l.filterMap id, ?_, hnd, hfresh⟩
  unfold Db.rowIds
  rw [hl, List.filterMap_append]

theorem Db.Le.trans {d1 d2 d3 : Db} (h12 : d1.Le d2) (h23 : d2.Le d3) : d1.Le d3 := by
  refine ⟨fun n h => h23.ht n (h12.ht n h), fun n => ?_, fun n => ?_⟩
  · obtain ⟨l1, hl1⟩ := h12.cols n
    obtain ⟨l2, hl2⟩ := h23.cols n
    exact ⟨l1 ++ l2, by rw [hl2, hl1, List.append_assoc]⟩
  · obtain ⟨l1, hl1, hnd1, hf1⟩ := h12.rows n
    obtain ⟨l2, hl2, hnd2, hf2⟩ := h23.rows n
    have hids : d2.rowIds n = d1.rowIds n ++ l1.filterMap id := by
      unfold Db.rowIds
      rw [hl1, List.filterMap_append]
    refine ⟨l1 ++ l2, by rw [hl2, hl1, List.append_assoc], ?_, ?_⟩
    · rw [List.filterMap_append]
      refine List.Nodup.append hnd1 hnd2 ?_
      intro i hi1 hi2
      have := hf2 i hi2
      rw [hids] at this
      exact this (List.mem_append_right _ hi1)
    · intro i hi
      rw [List.filterMap_append, List.mem_append] at hi
      rcases hi with hi | hi
      · exact hf1 i hi
      · intro hmem
        have := hf2 i hi
        rw [hids] at this
        exact this (List.mem_append_left _ hmem)

theorem Db.Le.colsMem {d1 d2 : Db} (h : d1.Le d2) (n c : String)
    (hc : c ∈ d1.colsOf n) : c ∈ d2.colsOf n := by
  obtain ⟨l, hl⟩ := h.cols n
  rw [hl]
  exact List.mem_append_left _ hc

theorem Db.Le.rowMem {d1 d2 : Db} (h : d1.Le d2) (n i : String)
    (hi : i ∈ d1.rowIds n) : i ∈ d2.rowIds n := by
  obtain ⟨l, hl, _, _⟩ := rowIds_append_of_le d1 d2 h n
  rw [hl]
  exact List.mem_append_left _ hi

theorem Db.Le.rowsLen {d1 d2 : Db} (h : d1.Le d2) (n : String) :
    (d1.rowsOf n).length ≤ (d2.rowsOf n).length := by
  obtain ⟨l, hl, _, _⟩ := h.rows n
  rw [hl, List.length_append]
  omega

theorem Db.Le.nodupRowIds {d1 d2 : Db} (h : d1.Le d2) (n : String)
    (hn : (d1.rowIds n).Nodup) : (d2.rowIds n).Nodup := by
  obtain ⟨l, hl, hnd, hfresh⟩ := rowIds_append_of_le d1 d2 h n
  rw [hl]
  exact List.Nodup.append hn hnd (fun i hi1 hi2 => hfresh i hi2 hi1)

theorem Db.Le.rowIdsNeNil {d1 d2 : Db} (h : d1.Le d2) (n : String)
    (hn : d1.rowIds n ≠ []) : d2.rowIds n ≠ [] := by
  obtain ⟨l, hl, _, _⟩ := rowIds_append_of_le d1 d2 h n
  rw [hl]
  intro hcontra
  exact hn (List.append_eq_nil.mp hcontra).1

/-! ### The primitives grow the database -/

theorem le_addColState (db : Db) (n c : String) : db.Le (addColState db n c) := by
  refine ⟨fun m h => by rw [hasTable_addColState]; exact h, fun m => ?_, fun m => ?_⟩
  · by_cases hm : n = m
    · subst hm
      cases h : db.hasTable n
      · rw [addColState, modifyTable_of_not_has db n _ h]
        exact ⟨[], by simp⟩
      · exact ⟨[c], colsOf_addColState_self db n c h⟩
    · exact ⟨[], by rw [colsOf_addColState_ne db n c m hm]; simp⟩
  · exact ⟨[], by rw [rowsOf_addColState]; simp⟩

theorem le_newTableState (db : Db) (n : String) (cs : List String)
    (h : db.hasTable n = false) : db.Le (newTableState db n cs) := by
  refine ⟨fun m hm => ?_, fun m => ?_, fun m => ?_⟩
  · rw [hasTable_newTableState]
    simp [hm]
  · by_cases hm : n = m
    · subst hm
      refine ⟨cs, ?_⟩
      rw [colsOf_newTableState_self db n cs h]
      have : db.colsOf n = [] := by
        unfold Db.colsOf
        rw [lookup_eq_none_of_not_has db n h]
        rfl
      rw [this]
      rfl
    · exact ⟨[], by rw [colsOf_newTableState_ne db n cs m hm]; simp⟩
  · by_cases hm : n = m
    · subst hm
      refine ⟨[], ?_, by simp, by simp⟩
      rw [rowsOf_newTableState_self db n cs h]
      have : db.rowsOf n = [] := by
        unfold Db.rowsOf
        rw [lookup_eq_none_of_not_has db n h]
        rfl
      rw [this]
      rfl
    · exact ⟨[], by rw [rowsOf_newTableState_ne db n cs m hm]; simp⟩

theorem le_addIndexState (db : Db) (idx : String) : db.Le (addIndexState db idx) :=
  ⟨fun m h => h, fun m => ⟨[], by simp [colsOf_addIndexState]⟩,
   fun m => ⟨[], by simp [rowsOf_addIndexState]⟩⟩

theorem le_addRowState_fresh (db : Db) (n i : String)
    (h2 : i ∉ db.rowIds n) :
    db.Le (addRowState db n (some i)) := by
  refine ⟨fun m h => by rw [hasTable_addRowState]; exact h, fun m => ?_, fun m => ?_⟩
  · exact ⟨[], by rw [colsOf_addRowState]; simp⟩
  · by_cases hm : n = m
    · subst hm
      cases h : db.hasTable n
      · rw [addRowState, modifyTable_of_not_has db n _ h]
        exact ⟨[], by simp⟩
      · refine ⟨[some i], rowsOf_addRowState_self db n (some i) h, by simp, ?_⟩
        intro j hj
        simp at hj
        subst hj
        exact h2
    · exact ⟨[], by rw [rowsOf_addRowState_ne db n (some i) m hm]; simp⟩

theorem le_addRowState_none (db : Db) (n : String) :
    db.Le (addRowState db n none) := by
  refine ⟨fun m h => by rw [hasTable_addRowState]; exact h, fun m => ?_, fun m => ?_⟩
  · exact ⟨[], by rw [colsOf_addRowState]; simp⟩
  · by_cases hm : n = m
    · subst hm
      cases h : db.hasTable n
      · rw [addRowState, modifyTable_of_not_has db n _ h]
        exact ⟨[], by simp⟩
      · exact ⟨[none], rowsOf_addRowState_self db n none h, by simp, by simp⟩
    · exact ⟨[], by rw [rowsOf_addRowState_ne db n none m hm]; simp⟩

theorem le_execCreateTable {db db2 : Db} {ine : Bool} {n : String} {cs : List String}
    (h : execCreateTable db ine n cs = .ok db2) : db.Le db2 := by
  unfold execCreateTable at h
  by_cases hh : db.hasTable n
  · simp [hh] at h
    cases ine with
    | true =>
      simp at h
      rw [← h]
      exact Db.Le.refl db
    | false => simp at h
  · simp [Bool.not_eq_true] at hh
    simp [hh] at h
    rw [← h]
    exact le_newTableState db n cs hh

theorem le_execAddColumn {db db2 : Db} {n c : String}
    (h : execAddColumn db n c = .ok db2) : db.Le db2 := by
  unfold execAddColumn at h
  cases hl : db.lookup n
  · rw [hl] at h; simp at h
  · rw [hl] at h
    rename_i t
    by_cases hct : c ∈ t.cols
    · simp [hct] at h
    · simp [hct] at h
      rw [← h]
      exact le_addColState db n c

theorem le_execCreateIndex {db db2 : Db} {ine : Bool} {idx tbl : String}
    (h : execCreateIndex db ine idx tbl = .ok db2) : db.Le db2 := by
  unfold execCreateIndex at h
  by_cases h1 : idx ∈ db.indexes
  · cases ine with
    | true => simp [h1] at h; rw [← h]; exact Db.Le.refl db
    | false => simp [h1] at h
  · cases hht : db.hasTable tbl with
    | false => simp [h1, hht] at h
    | true =>
      simp [h1, hht] at h
      rw [← h]
      exact le_addIndexState db idx

theorem le_execInsert {db db2 : Db} {n : String} {rid : Option String}
    (h : execInsert db n rid = .ok db2) : db.Le db2 := by
  unfold execInsert at h
  cases hl : db.lookup n
  · rw [hl] at h; simp at h
  · rw [hl] at h
    cases rid with
    | some i =>
      by_cases hdup : i ∈ db.rowIds n
      · simp [hdup] at h
      · simp [hdup] at h
        rw [← h]
        exact le_addRowState_fresh db n i hdup
    | none =>
      simp at h
      rw [← h]
      exact le_addRowState_none db n

theorem le_execInsertOrIgnore {db db2 : Db} {n : String} {rid : Option String}
    (h : execInsertOrIgnore db n rid = .ok db2) : db.Le db2 := by
  unfold execInsertOrIgnore at h
  cases hl : db.lookup n
  · rw [hl] at h; simp at h
  · rw [hl] at h
    cases rid with
    | some i =>
      by_cases hdup : i ∈ db.rowIds n
      · simp [hdup] at h
        rw [← h]
        exact Db.Le.refl db
      · simp [hdup] at h
        rw [← h]
        exact le_addRowState_fresh db n i hdup
    | none =>
      simp at h
      rw [← h]
      exact le_addRowState_none db n

theorem le_execStmt {db db2 : Db} {s : Stmt} (h : execStmt db s = .ok db2) :
    db.Le db2 := by
  cases s with
  | createTable ine n cs => exact le_execCreateTable h
  | addColumn n c => exact le_execAddColumn h
  | createIndex ine idx tbl => exact le_execCreateIndex h
  | insertRow n rid => exact le_execInsert h
  | insertOrIgnoreRow n rid => exact le_execInsertOrIgnore h

theorem le_execBatch : ∀ (l : List Stmt) (db db2 : Db),
    execBatch db l = .ok db2 → db.Le db2 := by
  intro l
  induction l with
  | nil =>
    intro db db2 h
    rw [execBatch_nil] at h
    cases h
    exact Db.Le.refl _
  | cons s l ih =>
    intro db db2 h
    rw [execBatch_cons] at h
    cases hs : execStmt db s with
    | error e => rw [hs] at h; simp at h
    | ok db1 =>
      rw [hs] at h
      simp at h
      exact (le_execStmt hs).trans (ih db1 db2 h)

theorem le_ensureLedgerTable (db : Db) : db.Le (ensureLedgerTable db) := by
  cases h : db.hasTable "migrations"
  · rw [ensureLedgerTable_of_not db h]
    exact le_newTableState db _ _ h
  · rw [ensureLedgerTable_of_has db h]
    exact Db.Le.refl db

/-! ### Bind reduction for Except -/

theorem exceptOkBind {α β : Type} (a : α) (f : α → Except String β) :
    ((Except.ok a : Except String α) >>= f) = f a := rfl

theorem exceptErrorBind {α β : Type} (e : String) (f : α → Except String β) :
    ((Except.error e : Except String α) >>= f) = Except.error e := rfl

/-! ### The migration transaction and the pending loop -/

theorem execInsert_ok_mem {db db2 : Db} {n i : String}
    (h : execInsert db n (some i) = .ok db2) : i ∈ db2.rowIds n := by
  unfold execInsert at h
  cases hl : db.lookup n
  · rw [hl] at h; simp at h
  · rw [hl] at h
    have hht : db.hasTable n = true := by
      unfold Db.hasTable
      rw [hl]
      rfl
    by_cases hdup : i ∈ db.rowIds n
    · simp [hdup] at h
    · simp [hdup] at h
      rw [← h, rowIds_addRowState_self db n (some i) hht]
      simp

theorem le_guardedAdd {db db2 : Db} {cond : Bool} {n c : String}
    (h : (if cond then execAddColumn db n c else .ok db) = .ok db2) : db.Le db2 := by
  cases cond
  · simp at h
    exact h ▸ Db.Le.refl db
  · simp at h
    exact le_execAddColumn h

theorem le_bindDb {db db2 : Db} {x : Except String Db} {f : Db → Except String Db}
    (hx : ∀ d, x = .ok d → db.Le d) (hf : ∀ d d2, f d = .ok d2 → d.Le d2)
    (h : (x >>= f) = .ok db2) : db.Le db2 := by
  cases x with
  | error e => rw [exceptErrorBind] at h; simp at h
  | ok d =>
    rw [exceptOkBind] at h
    exact (hx d rfl).trans (hf d db2 h)

theorem le_guardedAddCols {snap : List String} {tbl : String} :
    ∀ (cs : List String) (db db2 : Db),
    guardedAddCols snap tbl cs db = .ok db2 → db.Le db2 := by
  intro cs
  induction cs with
  | nil =>
    intro db db2 h
    cases h
    exact Db.Le.refl _
  | cons c cs ih =>
    intro db db2 h
    unfold guardedAddCols at h
    exact le_bindDb (fun d hd => le_guardedAdd hd) (fun d d2 h2 => ih d d2 h2) h

theorem le_execRecurrenceUnit {db db2 : Db}
    (h : execRecurrenceUnit db = .ok db2) : db.Le db2 :=
  le_guardedAddCols _ db db2 h

theorem le_execAttachmentSizeUnit {db db2 : Db}
    (h : execAttachmentSizeUnit db = .ok db2) : db.Le db2 :=
  le_guardedAddCols _ db db2 h

theorem le_execNotificationUnit {db db2 : Db}
    (h : execNotificationUnit db = .ok db2) : db.Le db2 := by
  unfold execNotificationUnit at h
  exact le_bindDb (fun d hd => le_guardedAddCols _ db d hd)
    (fun d d2 h2 => le_execBatch _ d d2 h2) h

theorem le_execUnit {db db2 : Db} {name : String} {body : List Stmt}
    (h : execUnit db name body = .ok db2) : db.Le db2 := by
  unfold execUnit at h
  by_cases h4 : name = "0004_add_recurrence.sql"
  · rw [if_pos h4] at h
    exact le_execRecurrenceUnit h
  · rw [if_neg h4] at h
    by_cases h8 : name = "0008_add_attachment_size.sql"
    · rw [if_pos h8] at h
      exact le_execAttachmentSizeUnit h
    · rw [if_neg h8] at h
      by_cases h6 : name = "0006_add_notification_preferences.sql"
      · rw [if_pos h6] at h
        exact le_execNotificationUnit h
      · rw [if_neg h6] at h
        exact le_execBatch _ _ _ h

theorem txMigration_ok {db db2 : Db} {file : String} {body : List Stmt}
    (h : txMigration db file body = .ok db2) :
    db.Le db2 ∧ file ∈ db2.rowIds "migrations" := by
  unfold txMigration at h
  cases hu : execUnit db file body with
  | error e =>
    rw [hu, exceptErrorBind] at h
    simp at h
  | ok db1 =>
    rw [hu, exceptOkBind] at h
    exact ⟨(le_execUnit hu).trans (le_execInsert h), execInsert_ok_mem h⟩

/-! #### stepUnit equations -/

theorem stepUnit_applied {contents : String → Option (List Stmt)}
    {applied : List String} {db : Db} {file : String}
    (ha : applied.contains file = true) :
    stepUnit contents applied db file = (db, none) := by
  unfold stepUnit
  rw [if_pos ha]

theorem stepUnit_read_none {contents : String → Option (List Stmt)}
    {applied : List String} {db : Db} {file : String}
    (ha : applied.contains file = false) (hc : contents file = none) :
    stepUnit contents applied db file = (db, none) := by
  unfold stepUnit
  rw [if_neg (by rw [ha]; exact Bool.false_ne_true), hc]

theorem stepUnit_tx_ok {contents : String → Option (List Stmt)}
    {applied : List String} {db db2 : Db} {file : String} {body : List Stmt}
    (ha : applied.contains file = false) (hc : contents file = some body)
    (ht : txMigration db file body = .ok db2) :
    stepUnit contents applied db file = (db2, none) := by
  unfold stepUnit
  rw [if_neg (by rw [ha]; exact Bool.false_ne_true), hc]
  show (match txMigration db file body with
    | .error e => (db, some e)
    | .ok d => (d, none)) = (db2, none)
  rw [ht]

theorem stepUnit_tx_error {contents : String → Option (List Stmt)}
    {applied : List String} {db : Db} {file : String} {body : List Stmt}
    {e : String}
    (ha : applied.contains file = false) (hc : contents file = some body)
    (ht : txMigration db file body = .error e) :
    stepUnit contents applied db file = (db, some e) := by
  unfold stepUnit
  rw [if_neg (by rw [ha]; exact Bool.false_ne_true), hc]
  show (match txMigration db file body with
    | .error e => (db, some e)
    | .ok d => (d, none)) = (db, some e)
  rw [ht]

theorem stepUnit_cases {contents : String → Option (List Stmt)}
    {applied : List String} (db : Db) (file : String) :
    (stepUnit contents applied db file = (db, none) ∧
      (applied.contains file = true ∨ contents file = none)) ∨
    (∃ body db2, applied.contains file = false ∧ contents file = some body ∧
      txMigration db file body = .ok db2 ∧
      stepUnit contents applied db file = (db2, none)) ∨
    (∃ body e, applied.contains file = false ∧ contents file = some body ∧
      txMigration db file body = .error e ∧
      stepUnit contents applied db file = (db, some e)) := by
  cases ha : applied.contains file with
  | true => exact Or.inl ⟨stepUnit_applied ha, Or.inl rfl⟩
  | false =>
    cases hc : contents file with
    | none => exact Or.inl ⟨stepUnit_read_none ha hc, Or.inr rfl⟩
    | some body =>
      cases ht : txMigration db file body with
      | ok db2 =>
        exact Or.inr (Or.inl ⟨body, db2, rfl, rfl, ht, stepUnit_tx_ok ha hc ht⟩)
      | error e =>
        exact Or.inr (Or.inr ⟨body, e, rfl, rfl, ht, stepUnit_tx_error ha hc ht⟩)

/-! #### applyLoop equations and facts -/

theorem applyLoop_nil {contents : String → Option (List Stmt)}
    {applied : List String} (db : Db) :
    applyLoop contents applied db [] = (db, none) := rfl

theorem applyLoop_cons_ok {contents : String → Option (List Stmt)}
    {applied : List String} {db d : Db} {f : String} (rest : List String)
    (hs : stepUnit contents applied db f = (d, none)) :
    applyLoop contents applied db (f :: rest) = applyLoop contents applied d rest := by
  rw [applyLoop, hs]

theorem applyLoop_cons_err {contents : String → Option (List Stmt)}
    {applied : List String} {db d : Db} {f : String} {e : String} (rest : List String)
    (hs : stepUnit contents applied db f = (d, some e)) :
    applyLoop contents applied db (f :: rest) = (d, some e) := by
  rw [applyLoop, hs]

theorem applyLoop_ok_le {contents : String → Option (List Stmt)}
    {applied : List String} :
    ∀ (files : List String) (db db2 : Db),
    applyLoop contents applied db files = (db2, none) → db.Le db2 := by
  intro files
  induction files with
  | nil =>
    intro db db2 h
    rw [applyLoop_nil] at h
    cases h
    exact Db.Le.refl _
  | cons f rest ih =>
    intro db db2 h
    rcases @stepUnit_cases contents applied db f with
      ⟨hs, _⟩ | ⟨body, d, ha, hc, ht, hs⟩ | ⟨body, e, ha, hc, ht, hs⟩
    · rw [applyLoop_cons_ok rest hs] at h
      exact ih db db2 h
    · rw [applyLoop_cons_ok rest hs] at h
      exact ((txMigration_ok ht).1).trans (ih d db2 h)
    · rw [applyLoop_cons_err rest hs] at h
      simp at h

theorem applyLoop_recorded {contents : String → Option (List Stmt)}
    {applied : List String} :
    ∀ (files : List String) (db db2 : Db),
    applyLoop contents applied db files = (db2, none) →
    ∀ f ∈ files, (contents f).isSome →
      applied.contains f = true ∨ f ∈ db2.rowIds "migrations" := by
  intro files
  induction files with
  | nil =>
    intro db db2 h f hf
    simp at hf
  | cons g rest ih =>
    intro db db2 h f hf hsome
    rcases @stepUnit_cases contents applied db g with
      ⟨hs, hskip⟩ | ⟨body, d, ha, hc, ht, hs⟩ | ⟨body, e, ha, hc, ht, hs⟩
    · rw [applyLoop_cons_ok rest hs] at h
      rcases List.mem_cons.mp hf with hfg | hfr
      · subst hfg
        rcases hskip with hap | hcn
        · exact Or.inl hap
        · rw [hcn] at hsome
          simp at hsome
      · exact ih db db2 h f hfr hsome
    · rw [applyLoop_cons_ok rest hs] at h
      rcases List.mem_cons.mp hf with hfg | hfr
      · subst hfg
        right
        exact (applyLoop_ok_le rest d db2 h).rowMem _ f (txMigration_ok ht).2
      · exact ih d db2 h f hfr hsome
    · rw [applyLoop_cons_err rest hs] at h
      simp at h

theorem applyLoop_skip_all {contents : String → Option (List Stmt)}
    {applied : List String} :
    ∀ (files : List String) (db : Db),
    (∀ f ∈ files, applied.contains f = true ∨ contents f = none) →
    applyLoop contents applied db files = (db, none) := by
  intro files
  induction files with
  | nil =>
    intro db _
    rfl
  | cons g rest ih =>
    intro db hall
    have hstep : stepUnit contents applied db g = (db, none) := by
      rcases hall g (List.mem_cons_self g rest) with ha | hc
      · exact stepUnit_applied ha
      · cases ha : applied.contains g with
        | true => exact stepUnit_applied ha
        | false => exact stepUnit_read_none ha hc
    rw [applyLoop_cons_ok rest hstep]
    exact ih db (fun f hf => hall f (List.mem_cons_of_mem g hf))

theorem applyLoop_filter_applied {contents : String → Option (List Stmt)}
    {applied : List String} :
    ∀ (files : List String) (db : Db),
    applyLoop contents applied db files
      = applyLoop contents applied db (files.filter (fun f => !applied.contains f)) := by
  intro files
  induction files with
  | nil => intro db; rfl
  | cons g rest ih =>
    intro db
    cases ha : applied.contains g with
    | true =>
      have hg : (g :: rest).filter (fun f => !applied.contains f)
          = rest.filter (fun f => !applied.contains f) := by
        rw [List.filter_cons, ha]
        simp
      rw [hg, applyLoop_cons_ok rest (stepUnit_applied ha), ih db]
    | false =>
      have hg : (g :: rest).filter (fun f => !applied.contains f)
          = g :: rest.filter (fun f => !applied.contains f) := by
        rw [List.filter_cons, ha]
        simp
      rw [hg]
      rcases @stepUnit_cases contents applied db g with
        ⟨hs, hskip⟩ | ⟨body, d, _, hc, ht, hs⟩ | ⟨body, e, _, hc, ht, hs⟩
      · rw [applyLoop_cons_ok rest hs,
          applyLoop_cons_ok (rest.filter (fun f => !applied.contains f)) hs]
        exact ih db
      · rw [applyLoop_cons_ok rest hs,
          applyLoop_cons_ok (rest.filter (fun f => !applied.contains f)) hs]
        exact ih d
      · rw [applyLoop_cons_err rest hs,
          applyLoop_cons_err (rest.filter (fun f => !applied.contains f)) hs]

theorem applyLoop_error_head {contents : String → Option (List Stmt)}
    {applied : List String} {db : Db} {f : String} {rest : List String}
    {body : List Stmt} {e : String}
    (ha : applied.contains f = false) (hc : contents f = some body)
    (ht : txMigration db f body = .error e) :
    applyLoop contents applied db (f :: rest) = (db, some e) :=
  applyLoop_cons_err rest (stepUnit_tx_error ha hc ht)

theorem applyLoop_read_skip {contents : String → Option (List Stmt)}
    {applied : List String} {db : Db} {f : String} {rest : List String}
    (ha : applied.contains f = false) (hc : contents f = none) :
    applyLoop contents applied db (f :: rest)
      = applyLoop contents applied db rest :=
  applyLoop_cons_ok rest (stepUnit_read_none ha hc)

/-! #### runMigrations stage composition -/

theorem runMigrations_eq {fs : Fs} {db0 db2 db3 db4 : Db}
    (hloop : applyLoop fs.contents (appliedList (ensureLedgerTable db0))
        (ensureLedgerTable db0) (migrationFiles fs) = (db2, none))
    (hatt : reconAttachments db2 = .ok db3)
    (hrt : (if db3.hasTable "tasks" then reconTasks db3 else .ok db3) = .ok db4) :
    runMigrations fs db0
      = if !db3.hasTable "tasks" && (appliedList (ensureLedgerTable db0)).isEmpty
        then execBatch db4 bootstrapBatch else .ok db4 := by
  unfold runMigrations
  rw [hloop]
  simp only [exceptOkBind]
  rw [hatt]
  simp only [exceptOkBind]
  rw [hrt]
  simp only [exceptOkBind]

theorem runMigrations_loop_error {fs : Fs} {db0 dbm : Db} {e : String}
    (hloop : applyLoop fs.contents (appliedList (ensureLedgerTable db0))
        (ensureLedgerTable db0) (migrationFiles fs) = (dbm, some e)) :
    runMigrations fs db0 = .error e := by
  unfold runMigrations
  rw [hloop]
  simp only [exceptErrorBind]

/-! #### execBatch step equations -/

theorem execBatch_cons_ok {db d : Db} {s : Stmt} {l : List Stmt}
    (h : execStmt db s = .ok d) :
    execBatch db (s :: l) = execBatch d l := by
  rw [execBatch_cons, h]

theorem execBatch_cons_err {db : Db} {s : Stmt} {l : List Stmt} {e : String}
    (h : execStmt db s = .error e) :
    execBatch db (s :: l) = .error e := by
  rw [execBatch_cons, h]

/-! #### guardedAddCols: success, effect and identity -/

theorem guardedAddCols_post (snap : List String) (tbl : String) :
    ∀ (cs : List String) (db : Db),
    db.hasTable tbl = true →
    (∀ c ∈ cs, c ∉ snap → c ∉ db.colsOf tbl) →
    cs.Nodup →
    ∃ db2, guardedAddCols snap tbl cs db = .ok db2 ∧
      db2.colsOf tbl = db.colsOf tbl ++ cs.filter (fun c => !snap.contains c) ∧
      (∀ m, db2.hasTable m = db.hasTable m) ∧
      (∀ m, m ≠ tbl → db2.colsOf m = db.colsOf m) ∧
      (∀ m, db2.rowsOf m = db.rowsOf m) ∧
      db2.indexes = db.indexes := by
  intro cs
  induction cs with
  | nil =>
    intro db hT hmiss hnd
    exact ⟨db, rfl, by simp, fun m => rfl, fun m _ => rfl, fun m => rfl, rfl⟩
  | cons c cs ih =>
    intro db hT hmiss hnd
    cases hc : snap.contains c with
    | true =>
      have hstep : (if !(snap.contains c) then execAddColumn db tbl c else .ok db)
          = .ok db := by
        rw [hc]
        rfl
      obtain ⟨db2, hrun, hcols, hht, hcne, hrows, hidx⟩ :=
        ih db hT (fun x hx => hmiss x (List.mem_cons_of_mem c hx)) (List.Nodup.of_cons hnd)
      refine ⟨db2, ?_, ?_, hht, hcne, hrows, hidx⟩
      · rw [guardedAddCols, hstep, exceptOkBind]
        exact hrun
      · rw [List.filter_cons, hc]
        simpa using hcols
    | false =>
      have hnotsnap : c ∉ snap := by simpa using hc
      have hnotcols : c ∉ db.colsOf tbl := hmiss c (List.mem_cons_self c cs) hnotsnap
      have hcontains : (db.colsOf tbl).contains c = false := by simpa using hnotcols
      have hstep : (if !(snap.contains c) then execAddColumn db tbl c else .ok db)
          = .ok (addColState db tbl c) := by
        rw [hc]
        simpa using execAddColumn_of_ok db tbl c hT hcontains
      have hT1 : (addColState db tbl c).hasTable tbl = true := by
        rw [hasTable_addColState]
        exact hT
      have hcols1 : (addColState db tbl c).colsOf tbl = db.colsOf tbl ++ [c] :=
        colsOf_addColState_self db tbl c hT
      have hnotc_cs : c ∉ cs := (List.nodup_cons.mp hnd).1
      have hmiss1 : ∀ x ∈ cs, x ∉ snap → x ∉ (addColState db tbl c).colsOf tbl := by
        intro x hx hxs
        rw [hcols1]
        intro hmem
        rcases List.mem_append.mp hmem with hm | hm
        · exact hmiss x (List.mem_cons_of_mem c hx) hxs hm
        · simp at hm
          subst hm
          exact hnotc_cs hx
      obtain ⟨db2, hrun, hcols, hht, hcne, hrows, hidx⟩ :=
        ih (addColState db tbl c) hT1 hmiss1 (List.Nodup.of_cons hnd)
      refine ⟨db2, ?_, ?_, ?_, ?_, ?_, ?_⟩
      · rw [guardedAddCols, hstep, exceptOkBind]
        exact hrun
      · rw [hcols, hcols1, List.filter_cons, hc, List.append_assoc]
        rfl
      · intro m
        rw [hht m, hasTable_addColState]
      · intro m hm
        rw [hcne m hm, colsOf_addColState_ne db tbl c m (fun he => hm he.symm)]
      · intro m
        rw [hrows m, rowsOf_addColState]
      · rw [hidx, indexes_addColState]

theorem guardedAddCols_id (snap : List String) (tbl : String) :
    ∀ (cs : List String) (db : Db),
    (∀ c ∈ cs, snap.contains c = true) →
    guardedAddCols snap tbl cs db = .ok db := by
  intro cs
  induction cs with
  | nil => intro db _; rfl
  | cons c cs ih =>
    intro db hall
    have hc := hall c (List.mem_cons_self c cs)
    have hstep : (if !(snap.contains c) then execAddColumn db tbl c else .ok db)
        = .ok db := by
      rw [hc]
      rfl
    rw [guardedAddCols, hstep, exceptOkBind]
    exact ih db (fun x hx => hall x (List.mem_cons_of_mem c hx))

/-! #### Per-statement postconditions for concrete batches -/

theorem obs_of_tables_eq {d1 d2 : Db} (h : d2.tables = d1.tables) :
    (∀ m, d2.hasTable m = d1.hasTable m) ∧ (∀ m, d2.colsOf m = d1.colsOf m) ∧
    (∀ m, d2.rowsOf m = d1.rowsOf m) := by
  refine ⟨fun m => ?_, fun m => ?_, fun m => ?_⟩ <;>
    simp [Db.hasTable, Db.colsOf, Db.rowsOf, Db.lookup, h]

theorem execCreateTable_true_post (db : Db) (n : String) (cs : List String) :
    ∃ db2, execCreateTable db true n cs = .ok db2 ∧
      db2.hasTable n = true ∧
      (∀ m, db2.hasTable m = (db.hasTable m || n == m)) ∧
      (∀ m, db.hasTable m = true →
        db2.colsOf m = db.colsOf m ∧ db2.rowsOf m = db.rowsOf m) ∧
      (db.hasTable n = false → db2.colsOf n = cs ∧ db2.rowsOf n = []) ∧
      db2.indexes = db.indexes := by
  cases h : db.hasTable n with
  | true =>
    refine ⟨db, execCreateTable_of_has db n cs h, h, fun m => ?_,
      fun m _ => ⟨rfl, rfl⟩, fun hf => ?_, rfl⟩
    · by_cases hm : n = m
      · subst hm
        rw [h]
        simp
      · simp [hm]
    · cases hf
  | false =>
    refine ⟨newTableState db n cs, execCreateTable_of_not db n cs h, ?_,
      fun m => hasTable_newTableState db n cs m,
      fun m hm => ⟨colsOf_newTableState_of_has db n cs m hm,
        rowsOf_newTableState_of_has db n cs m hm⟩,
      fun _ => ⟨colsOf_newTableState_self db n cs h,
        rowsOf_newTableState_self db n cs h⟩, rfl⟩
    rw [hasTable_newTableState]
    simp

theorem execCreateIndex_true_post (db : Db) (idx tbl : String)
    (h : db.hasTable tbl = true) :
    ∃ db2, execCreateIndex db true idx tbl = .ok db2 ∧ db2.tables = db.tables ∧
      idx ∈ db2.indexes ∧ (∀ j ∈ db.indexes, j ∈ db2.indexes) := by
  cases hc : db.indexes.contains idx with
  | true =>
    exact ⟨db, execCreateIndex_of_mem db idx tbl hc, rfl, by simpa using hc,
      fun j hj => hj⟩
  | false =>
    refine ⟨addIndexState db idx, execCreateIndex_of_ok db idx tbl hc h, rfl, ?_, ?_⟩
    · unfold addIndexState
      simp
    · intro j hj
      unfold addIndexState
      simp [hj]

theorem execInsertOrIgnore_some_post (db : Db) (n i : String)
    (h : db.hasTable n = true) :
    ∃ db2, execInsertOrIgnore db n (some i) = .ok db2 ∧
      (∀ m, db2.hasTable m = db.hasTable m) ∧
      (∀ m, db2.colsOf m = db.colsOf m) ∧
      (∀ m, m ≠ n → db2.rowsOf m = db.rowsOf m) ∧
      db2.indexes = db.indexes ∧ db.Le db2 := by
  cases hc : (db.rowIds n).contains i with
  | true =>
    exact ⟨db, execInsertOrIgnore_of_dup db n i h hc, fun m => rfl, fun m => rfl,
      fun m _ => rfl, rfl, Db.Le.refl db⟩
  | false =>
    refine ⟨addRowState db n (some i), execInsertOrIgnore_of_ok_some db n i h hc,
      fun m => hasTable_addRowState db n (some i) m,
      fun m => colsOf_addRowState db n (some i) m,
      fun m hm => rowsOf_addRowState_ne db n (some i) m (fun he => hm he.symm),
      rfl, le_addRowState_fresh db n i (by simpa using hc)⟩

/-! #### Concrete batch postconditions -/

theorem taskTemplatesBatch_post (db : Db) :
    ∃ db2, execBatch db taskTemplatesBatch = .ok db2 ∧
      db2.hasTable "task_templates" = true ∧
      (∀ m, db2.hasTable m = (db.hasTable m || "task_templates" == m)) ∧
      (∀ m, db.hasTable m = true →
        db2.colsOf m = db.colsOf m ∧ db2.rowsOf m = db.rowsOf m) ∧
      db.Le db2 := by
  obtain ⟨d1, h1, h1self, h1ht, h1pres, h1new, h1idx⟩ :=
    execCreateTable_true_post db "task_templates" taskTemplatesCols
  obtain ⟨d2, h2, h2tab, h2idx, h2sup⟩ :=
    execCreateIndex_true_post d1 "idx_templates_name" "task_templates" h1self
  obtain ⟨o2ht, o2cols, o2rows⟩ := obs_of_tables_eq h2tab
  obtain ⟨d3, h3, h3tab, h3idx, h3sup⟩ :=
    execCreateIndex_true_post d2 "idx_templates_created" "task_templates"
      (by rw [o2ht]; exact h1self)
  obtain ⟨o3ht, o3cols, o3rows⟩ := obs_of_tables_eq h3tab
  have e1 : execStmt db (Stmt.createTable true "task_templates" taskTemplatesCols)
      = .ok d1 := h1
  have e2 : execStmt d1 (Stmt.createIndex true "idx_templates_name" "task_templates")
      = .ok d2 := h2
  have e3 : execStmt d2 (Stmt.createIndex true "idx_templates_created" "task_templates")
      = .ok d3 := h3
  have hrun : execBatch db taskTemplatesBatch = .ok d3 := by
    unfold taskTemplatesBatch
    rw [execBatch_cons_ok e1, execBatch_cons_ok e2, execBatch_cons_ok e3, execBatch_nil]
  refine ⟨d3, hrun, ?_, ?_, ?_, le_execBatch _ _ _ hrun⟩
  · rw [o3ht, o2ht]
    exact h1self
  · intro m
    rw [o3ht, o2ht, h1ht]
  · intro m hm
    constructor
    · rw [o3cols, o2cols]
      exact (h1pres m hm).1
    · rw [o3rows, o2rows]
      exact (h1pres m hm).2

theorem gamificationBatch_post (db : Db) :
    ∃ db2, execBatch db gamificationBatch = .ok db2 ∧
      db2.hasTable "user_progress" = true ∧
      (∀ m, db2.hasTable m = (((db.hasTable m || "user_progress" == m)
        || "badges" == m) || "xp_history" == m)) ∧
      (∀ m, db.hasTable m = true →
        db2.colsOf m = db.colsOf m ∧ db2.rowsOf m = db.rowsOf m) ∧
      (db.hasTable "user_progress" = false → db2.rowsOf "user_progress" = []) ∧
      db.Le db2 := by
  obtain ⟨d1, h1, h1self, h1ht, h1pres, h1new, h1idx⟩ :=
    execCreateTable_true_post db "user_progress" userProgressCols
  obtain ⟨d2, h2, h2self, h2ht, h2pres, h2new, h2idx⟩ :=
    execCreateTable_true_post d1 "badges" badgesCols
  obtain ⟨d3, h3, h3self, h3ht, h3pres, h3new, h3idx⟩ :=
    execCreateTable_true_post d2 "xp_history" xpHistoryCols
  have hbadges3 : d3.hasTable "badges" = true := by
    rw [h3ht, h2self]
    simp
  have hxp3 : d3.hasTable "xp_history" = true := h3self
  obtain ⟨d4, h4, h4tab, h4idx, h4sup⟩ :=
    execCreateIndex_true_post d3 "idx_badges_user_id" "badges" hbadges3
  obtain ⟨o4ht, o4cols, o4rows⟩ := obs_of_tables_eq h4tab
  obtain ⟨d5, h5, h5tab, h5idx, h5sup⟩ :=
    execCreateIndex_true_post d4 "idx_badges_badge_type" "badges"
      (by rw [o4ht]; exact hbadges3)
  obtain ⟨o5ht, o5cols, o5rows⟩ := obs_of_tables_eq h5tab
  obtain ⟨d6, h6, h6tab, h6idx, h6sup⟩ :=
    execCreateIndex_true_post d5 "idx_xp_history_user_id" "xp_history"
      (by rw [o5ht, o4ht]; exact hxp3)
  obtain ⟨o6ht, o6cols, o6rows⟩ := obs_of_tables_eq h6tab
  obtain ⟨d7, h7, h7tab, h7idx, h7sup⟩ :=
    execCreateIndex_true_post d6 "idx_xp_history_created_at" "xp_history"
      (by rw [o6ht, o5ht, o4ht]; exact hxp3)
  obtain ⟨o7ht, o7cols, o7rows⟩ := obs_of_tables_eq h7tab
  obtain ⟨d8, h8, h8tab, h8idx, h8sup⟩ :=
    execCreateIndex_true_post d7 "idx_xp_history_source" "xp_history"
      (by rw [o7ht, o6ht, o5ht, o4ht]; exact hxp3)
  obtain ⟨o8ht, o8cols, o8rows⟩ := obs_of_tables_eq h8tab
  have e1 : execStmt db (Stmt.createTable true "user_progress" userProgressCols)
      = .ok d1 := h1
  have e2 : execStmt d1 (Stmt.createTable true "badges" badgesCols) = .ok d2 := h2
  have e3 : execStmt d2 (Stmt.createTable true "xp_history" xpHistoryCols)
      = .ok d3 := h3
  have e4 : execStmt d3 (Stmt.createIndex true "idx_badges_user_id" "badges")
      = .ok d4 := h4
  have e5 : execStmt d4 (Stmt.createIndex true "idx_badges_badge_type" "badges")
      = .ok d5 := h5
  have e6 : execStmt d5 (Stmt.createIndex true "idx_xp_history_user_id" "xp_history")
      = .ok d6 := h6
  have e7 : execStmt d6 (Stmt.createIndex true "idx_xp_history_created_at" "xp_history")
      = .ok d7 := h7
  have e8 : execStmt d7 (Stmt.createIndex true "idx_xp_history_source" "xp_history")
      = .ok d8 := h8
  have hrun : execBatch db gamificationBatch = .ok d8 := by
    unfold gamificationBatch
    rw [execBatch_cons_ok e1, execBatch_cons_ok e2, execBatch_cons_ok e3,
      execBatch_cons_ok e4, execBatch_cons_ok e5, execBatch_cons_ok e6,
      execBatch_cons_ok e7, execBatch_cons_ok e8, execBatch_nil]
  have hhtAll : ∀ m, d8.hasTable m = (((db.hasTable m || "user_progress" == m)
      || "badges" == m) || "xp_history" == m) := by
    intro m
    rw [o8ht, o7ht, o6ht, o5ht, o4ht, h3ht, h2ht, h1ht]
  refine ⟨d8, hrun, ?_, hhtAll, ?_, ?_, le_execBatch _ _ _ hrun⟩
  · rw [hhtAll]
    simp
  · intro m hm
    have hm1 : d1.hasTable m = true := by
      rw [h1ht, hm]
      simp
    have hm2 : d2.hasTable m = true := by
      rw [h2ht, hm1]
      simp
    constructor
    · rw [o8cols, o7cols, o6cols, o5cols, o4cols]
      rw [(h3pres m hm2).1, (h2pres m hm1).1, (h1pres m hm).1]
    · rw [o8rows, o7rows, o6rows, o5rows, o4rows]
      rw [(h3pres m hm2).2, (h2pres m hm1).2, (h1pres m hm).2]
  · intro hup
    have r1 : d1.rowsOf "user_progress" = [] := (h1new hup).2
    have hup1 : d1.hasTable "user_progress" = true := h1self
    have hup2 : d2.hasTable "user_progress" = true := by
      rw [h2ht, hup1]
      simp
    rw [o8rows, o7rows, o6rows, o5rows, o4rows,
      (h3pres "user_progress" hup2).2, (h2pres "user_progress" hup1).2, r1]

theorem notificationScheduleBatch_post (db : Db) :
    ∃ db2, execBatch db notificationScheduleBatch = .ok db2 ∧
      db2.hasTable "notification_schedule" = true ∧
      (∀ m, db2.hasTable m = (db.hasTable m || "notification_schedule" == m)) ∧
      (∀ m, db.hasTable m = true →
        db2.colsOf m = db.colsOf m ∧ db2.rowsOf m = db.rowsOf m) ∧
      db.Le db2 := by
  obtain ⟨d1, h1, h1self, h1ht, h1pres, h1new, h1idx⟩ :=
    execCreateTable_true_post db "notification_schedule"
      ["id", "task_id", "scheduled_at", "snooze_until", "created_at"]
  obtain ⟨d2, h2, h2tab, h2idx, h2sup⟩ :=
    execCreateIndex_true_post d1 "idx_notification_schedule_scheduled_at"
      "notification_schedule" h1self
  obtain ⟨o2ht, o2cols, o2rows⟩ := obs_of_tables_eq h2tab
  obtain ⟨d3, h3, h3tab, h3idx, h3sup⟩ :=
    execCreateIndex_true_post d2 "idx_notification_schedule_task_id"
      "notification_schedule" (by rw [o2ht]; exact h1self)
  obtain ⟨o3ht, o3cols, o3rows⟩ := obs_of_tables_eq h3tab
  have e1 : execStmt db (Stmt.createTable true "notification_schedule"
      ["id", "task_id", "scheduled_at", "snooze_until", "created_at"]) = .ok d1 := h1
  have e2 : execStmt d1 (Stmt.createIndex true "idx_notification_schedule_scheduled_at"
      "notification_schedule") = .ok d2 := h2
  have e3 : execStmt d2 (Stmt.createIndex true "idx_notification_schedule_task_id"
      "notification_schedule") = .ok d3 := h3
  have hrun : execBatch db notificationScheduleBatch = .ok d3 := by
    unfold notificationScheduleBatch
    rw [execBatch_cons_ok e1, execBatch_cons_ok e2, execBatch_cons_ok e3, execBatch_nil]
  refine ⟨d3, hrun, ?_, ?_, ?_, le_execBatch _ _ _ hrun⟩
  · rw [o3ht, o2ht]
    exact h1self
  · intro m
    rw [o3ht, o2ht, h1ht]
  · intro m hm
    constructor
    · rw [o3cols, o2cols]
      exact (h1pres m hm).1
    · rw [o3rows, o2rows]
      exact (h1pres m hm).2

/-- The six tables created by the bootstrap fallback batch. -/
def bootstrapTables : List String :=
  ["projects", "tasks", "settings", "subtasks", "attachments", "task_templates"]

theorem bootstrapBatch_post (db : Db) :
    ∃ db2, execBatch db bootstrapBatch = .ok db2 ∧
      (∀ n, n ∈ bootstrapTables → db2.hasTable n = true) ∧
      (∀ m, db2.hasTable m = true → db.hasTable m = true ∨ m ∈ bootstrapTables) ∧
      (∀ m, db.hasTable m = true →
        db2.colsOf m = db.colsOf m ∧ db2.rowsOf m = db.rowsOf m) ∧
      (db.hasTable "tasks" = false → db2.colsOf "tasks" = bootstrapTasksCols ∧
        db2.rowsOf "tasks" = []) ∧
      (∀ j, j ∈ ["idx_tasks_project_id", "idx_tasks_due_at", "idx_tasks_completed_at",
        "idx_templates_name", "idx_templates_created"] → j ∈ db2.indexes) ∧
      db.Le db2 := by
  obtain ⟨d1, h1, h1self, h1ht, h1pres, h1new, h1idx⟩ :=
    execCreateTable_true_post db "projects" projectsCols
  obtain ⟨d2, h2, h2self, h2ht, h2pres, h2new, h2idx⟩ :=
    execCreateTable_true_post d1 "tasks" bootstrapTasksCols
  obtain ⟨d3, h3, h3self, h3ht, h3pres, h3new, h3idx⟩ :=
    execCreateTable_true_post d2 "settings" settingsCols
  obtain ⟨d4, h4, h4self, h4ht, h4pres, h4new, h4idx⟩ :=
    execCreateTable_true_post d3 "subtasks" subtasksCols
  obtain ⟨d5, h5, h5self, h5ht, h5pres, h5new, h5idx⟩ :=
    execCreateTable_true_post d4 "attachments" attachmentsBaseCols
  have htasks5 : d5.hasTable "tasks" = true := by
    rw [h5ht, h4ht, h3ht, h2self]
    simp
  obtain ⟨d6, h6, h6tab, h6idx, h6sup⟩ :=
    execCreateIndex_true_post d5 "idx_tasks_project_id" "tasks" htasks5
  obtain ⟨o6ht, o6cols, o6rows⟩ := obs_of_tables_eq h6tab
  obtain ⟨d7, h7, h7tab, h7idx, h7sup⟩ :=
    execCreateIndex_true_post d6 "idx_tasks_due_at" "tasks"
      (by rw [o6ht]; exact htasks5)
  obtain ⟨o7ht, o7cols, o7rows⟩ := obs_of_tables_eq h7tab
  obtain ⟨d8, h8, h8tab, h8idx, h8sup⟩ :=
    execCreateIndex_true_post d7 "idx_tasks_completed_at" "tasks"
      (by rw [o7ht, o6ht]; exact htasks5)
  obtain ⟨o8ht, o8cols, o8rows⟩ := obs_of_tables_eq h8tab
  obtain ⟨d9, h9, h9self, h9ht, h9pres, h9new, h9idx⟩ :=
    execCreateTable_true_post d8 "task_templates" taskTemplatesCols
  obtain ⟨d10, h10, h10tab, h10idx, h10sup⟩ :=
    execCreateIndex_true_post d9 "idx_templates_name" "task_templates" h9self
  obtain ⟨o10ht, o10cols, o10rows⟩ := obs_of_tables_eq h10tab
  obtain ⟨d11, h11, h11tab, h11idx, h11sup⟩ :=
    execCreateIndex_true_post d10 "idx_templates_created" "task_templates"
      (by rw [o10ht]; exact h9self)
  obtain ⟨o11ht, o11cols, o11rows⟩ := obs_of_tables_eq h11tab
  have e1 : execStmt db (Stmt.createTable true "projects" projectsCols) = .ok d1 := h1
  have e2 : execStmt d1 (Stmt.createTable true "tasks" bootstrapTasksCols) = .ok d2 := h2
  have e3 : execStmt d2 (Stmt.createTable true "settings" settingsCols) = .ok d3 := h3
  have e4 : execStmt d3 (Stmt.createTable true "subtasks" subtasksCols) = .ok d4 := h4
  have e5 : execStmt d4 (Stmt.createTable true "attachments" attachmentsBaseCols)
      = .ok d5 := h5
  have e6 : execStmt d5 (Stmt.createIndex true "idx_tasks_project_id" "tasks")
      = .ok d6 := h6
  have e7 : execStmt d6 (Stmt.createIndex true "idx_tasks_due_at" "tasks")
      = .ok d7 := h7
  have e8 : execStmt d7 (Stmt.createIndex true "idx_tasks_completed_at" "tasks")
      = .ok d8 := h8
  have e9 : execStmt d8 (Stmt.createTable true "task_templates" taskTemplatesCols)
      = .ok d9 := h9
  have e10 : execStmt d9 (Stmt.createIndex true "idx_templates_name" "task_templates")
      = .ok d10 := h10
  have e11 : execStmt d10 (Stmt.createIndex true "idx_templates_created" "task_templates")
      = .ok d11 := h11
  have hrun : execBatch db bootstrapBatch = .ok d11 := by
    unfold bootstrapBatch
    rw [execBatch_cons_ok e1, execBatch_cons_ok e2, execBatch_cons_ok e3,
      execBatch_cons_ok e4, execBatch_cons_ok e5, execBatch_cons_ok e6,
      execBatch_cons_ok e7, execBatch_cons_ok e8, execBatch_cons_ok e9,
      execBatch_cons_ok e10, execBatch_cons_ok e11, execBatch_nil]
  have hhtAll : ∀ m, d11.hasTable m = ((((((db.hasTable m || "projects" == m)
      || "tasks" == m) || "settings" == m) || "subtasks" == m)
      || "attachments" == m) || "task_templates" == m) := by
    intro m
    rw [o11ht, o10ht, h9ht, o8ht, o7ht, o6ht, h5ht, h4ht, h3ht, h2ht, h1ht]
  refine ⟨d11, hrun, ?_, ?_, ?_, ?_, ?_, le_execBatch _ _ _ hrun⟩
  · intro n hn
    unfold bootstrapTables at hn
    simp at hn
    rw [hhtAll]
    rcases hn with h | h | h | h | h | h <;> (subst h; simp)
  · intro m hm
    rw [hhtAll] at hm
    by_cases hdb : db.hasTable m = true
    · exact Or.inl hdb
    · right
      rw [Bool.not_eq_true] at hdb
      rw [hdb] at hm
      simp at hm
      unfold bootstrapTables
      rcases hm with ((((h | h) | h) | h) | h) | h <;> (rw [← h]; simp)
  · intro m hm
    have hm1 : d1.hasTable m = true := by rw [h1ht, hm]; simp
    have hm2 : d2.hasTable m = true := by rw [h2ht, hm1]; simp
    have hm3 : d3.hasTable m = true := by rw [h3ht, hm2]; simp
    have hm4 : d4.hasTable m = true := by rw [h4ht, hm3]; simp
    have hm5 : d5.hasTable m = true := by rw [h5ht, hm4]; simp
    have hm8 : d8.hasTable m = true := by rw [o8ht, o7ht, o6ht]; exact hm5
    constructor
    · rw [o11cols, o10cols, (h9pres m hm8).1, o8cols, o7cols, o6cols,
        (h5pres m hm4).1, (h4pres m hm3).1, (h3pres m hm2).1, (h2pres m hm1).1,
        (h1pres m hm).1]
    · rw [o11rows, o10rows, (h9pres m hm8).2, o8rows, o7rows, o6rows,
        (h5pres m hm4).2, (h4pres m hm3).2, (h3pres m hm2).2, (h2pres m hm1).2,
        (h1pres m hm).2]
  · intro hnt
    have hnt1 : d1.hasTable "tasks" = false := by
      rw [h1ht, hnt]
      simp
    have hc2 : d2.colsOf "tasks" = bootstrapTasksCols ∧ d2.rowsOf "tasks" = [] :=
      h2new hnt1
    have hm2 : d2.hasTable "tasks" = true := h2self
    have hm3 : d3.hasTable "tasks" = true := by rw [h3ht, hm2]; simp
    have hm4 : d4.hasTable "tasks" = true := by rw [h4ht, hm3]; simp
    have hm8 : d8.hasTable "tasks" = true := by
      rw [o8ht, o7ht, o6ht, h5ht, hm4]
      simp
    constructor
    · rw [o11cols, o10cols, (h9pres "tasks" hm8).1, o8cols, o7cols, o6cols,
        (h5pres "tasks" hm4).1, (h4pres "tasks" hm3).1, (h3pres "tasks" hm2).1,
        hc2.1]
    · rw [o11rows, o10rows, (h9pres "tasks" hm8).2, o8rows, o7rows, o6rows,
        (h5pres "tasks" hm4).2, (h4pres "tasks" hm3).2, (h3pres "tasks" hm2).2,
        hc2.2]
  · intro j hj
    have s6 : j ∈ d6.indexes → j ∈ d11.indexes := by
      intro hx
      exact h11sup j (h10sup j (by rw [h9idx]; exact h8sup j (h7sup j hx)))
    have s8 : j ∈ d8.indexes → j ∈ d11.indexes := by
      intro hx
      exact h11sup j (h10sup j (by rw [h9idx]; exact hx))
    simp at hj
    rcases hj with h | h | h | h | h
    · subst h
      exact s6 h6idx
    · subst h
      exact s8 (h8sup _ h7idx)
    · subst h
      exact s8 h8idx
    · subst h
      exact h11sup _ h10idx
    · subst h
      exact h11idx

/-! #### reconAttachments: success, postcondition, identity -/

theorem reconAttachments_id (db : Db) (h1 : db.hasTable "attachments" = true)
    (h2 : (db.colsOf "attachments").contains "size" = true) :
    reconAttachments db = .ok db := by
  unfold reconAttachments
  rw [if_pos h1, if_pos h2]

theorem reconAttachments_post (db : Db) :
    ∃ db2, reconAttachments db = .ok db2 ∧
      db2.hasTable "attachments" = true ∧
      "size" ∈ db2.colsOf "attachments" ∧
      (∀ m, db2.hasTable m = (db.hasTable m || "attachments" == m)) ∧
      (∀ m, m ≠ "attachments" → db2.colsOf m = db.colsOf m) ∧
      (∀ m, db2.rowsOf m = db.rowsOf m) ∧
      db.Le db2 := by
  cases hatt : db.hasTable "attachments" with
  | true =>
    have hht : ∀ m, db.hasTable m = (db.hasTable m || "attachments" == m) := by
      intro m
      by_cases hm : "attachments" = m
      · rw [← hm, hatt]
        simp
      · simp [hm]
    cases hsz : (db.colsOf "attachments").contains "size" with
    | true =>
      exact ⟨db, reconAttachments_id db hatt hsz, hatt, by simpa using hsz,
        hht, fun m _ => rfl, fun m => rfl, Db.Le.refl db⟩
    | false =>
      have hrun : reconAttachments db = .ok (addColState db "attachments" "size") := by
        unfold reconAttachments
        rw [if_pos hatt, if_neg (by rw [hsz]; exact Bool.false_ne_true)]
        exact execAddColumn_of_ok db "attachments" "size" hatt hsz
      refine ⟨addColState db "attachments" "size", hrun, ?_, ?_, ?_, ?_, ?_, ?_⟩
      · rw [hasTable_addColState]
        exact hatt
      · rw [colsOf_addColState_self db "attachments" "size" hatt]
        simp
      · intro m
        rw [hasTable_addColState]
        exact hht m
      · intro m hm
        exact colsOf_addColState_ne db "attachments" "size" m (fun he => hm he.symm)
      · intro m
        exact rowsOf_addColState db "attachments" "size" m
      · exact le_addColState db "attachments" "size"
  | false =>
    obtain ⟨d1, h1, h1self, h1ht, h1pres, h1new, h1idx⟩ :=
      execCreateTable_true_post db "attachments" attachmentsBaseCols
    obtain ⟨d2, h2, h2tab, h2idx, h2sup⟩ :=
      execCreateIndex_true_post d1 "idx_attachments_task_id" "attachments" h1self
    obtain ⟨o2ht, o2cols, o2rows⟩ := obs_of_tables_eq h2tab
    have e1 : execStmt db (Stmt.createTable true "attachments" attachmentsBaseCols)
        = .ok d1 := h1
    have e2 : execStmt d1 (Stmt.createIndex true "idx_attachments_task_id"
        "attachments") = .ok d2 := h2
    have hrun : reconAttachments db = .ok d2 := by
      unfold reconAttachments
      rw [if_neg (by rw [hatt]; exact Bool.false_ne_true)]
      rw [execBatch_cons_ok e1, execBatch_cons_ok e2, execBatch_nil]
    have hle : db.Le d2 := by
      refine (le_execCreateTable h1).trans ?_
      exact le_execCreateIndex h2
    refine ⟨d2, hrun, ?_, ?_, ?_, ?_, ?_, hle⟩
    · rw [o2ht]
      exact h1self
    · rw [o2cols, (h1new hatt).1]
      simp [attachmentsBaseCols]
    · intro m
      rw [o2ht, h1ht]
    · intro m hm
      have hd1 : d1 = newTableState db "attachments" attachmentsBaseCols := by
        have hx := execCreateTable_of_not db "attachments" attachmentsBaseCols hatt
        rw [h1] at hx
        exact Except.ok.inj hx
      subst hd1
      rw [o2cols]
      exact colsOf_newTableState_ne db "attachments" attachmentsBaseCols m
        (fun he => hm he.symm)
    · intro m
      have hd1 : d1 = newTableState db "attachments" attachmentsBaseCols := by
        have hx := execCreateTable_of_not db "attachments" attachmentsBaseCols hatt
        rw [h1] at hx
        exact Except.ok.inj hx
      subst hd1
      rw [o2rows]
      by_cases hma : "attachments" = m
      · rw [← hma]
        rw [rowsOf_newTableState_self db _ _ hatt]
        unfold Db.rowsOf
        rw [lookup_eq_none_of_not_has db _ hatt]
        rfl
      · exact rowsOf_newTableState_ne db _ _ m hma

/-! #### reconTasks: success, postcondition, identity -/

theorem reconTasks_id (db : Db)
    (hcols : ∀ c ∈ reconCriticalCols, (db.colsOf "tasks").contains c = true)
    (htpl : db.hasTable "task_templates" = true)
    (hup : db.hasTable "user_progress" = true) :
    reconTasks db = .ok db := by
  unfold reconTasks
  have h2 : (if !(db.hasTable "task_templates") then execBatch db taskTemplatesBatch
      else .ok db) = .ok db := by
    rw [htpl]
    rfl
  have h3 : (if !(db.hasTable "user_progress") then
        execBatch db gamificationBatch >>= fun db3 =>
          execInsertOrIgnore db3 "user_progress" (some "default")
      else .ok db) = .ok db := by
    rw [hup]
    rfl
  rw [guardedAddCols_id _ _ _ db hcols, exceptOkBind, h2, exceptOkBind, h3]

theorem reconTasks_post (db : Db) (hT : db.hasTable "tasks" = true) :
    ∃ db2, reconTasks db = .ok db2 ∧
      db2.colsOf "tasks" = db.colsOf "tasks"
        ++ reconCriticalCols.filter (fun c => !(db.colsOf "tasks").contains c) ∧
      db2.hasTable "task_templates" = true ∧
      db2.hasTable "user_progress" = true ∧
      (∀ m, db.hasTable m = true → db2.hasTable m = true) ∧
      (∀ m, db2.hasTable m = true → db.hasTable m = true ∨
        m ∈ ["task_templates", "user_progress", "badges", "xp_history"]) ∧
      (∀ m, db.hasTable m = true → m ≠ "tasks" → db2.colsOf m = db.colsOf m) ∧
      (∀ m, db.hasTable m = true → m ≠ "user_progress" →
        db2.rowsOf m = db.rowsOf m) ∧
      db.Le db2 := by
  obtain ⟨d1, hrun1, hcols1, hht1, hcne1, hrows1, hidx1⟩ :=
    guardedAddCols_post (db.colsOf "tasks") "tasks" reconCriticalCols db hT
      (fun c _ hc => hc) (by unfold reconCriticalCols; simp)
  have hle1 : db.Le d1 := le_guardedAddCols reconCriticalCols db d1 hrun1
  -- step 2: task_templates fallback
  have step2 : ∃ d2, (if !(d1.hasTable "task_templates")
        then execBatch d1 taskTemplatesBatch else .ok d1) = .ok d2 ∧
      d2.hasTable "task_templates" = true ∧
      (∀ m, d1.hasTable m = true → d2.hasTable m = true) ∧
      (∀ m, d2.hasTable m = true → d1.hasTable m = true ∨ m = "task_templates") ∧
      (∀ m, d1.hasTable m = true → d2.colsOf m = d1.colsOf m ∧
        d2.rowsOf m = d1.rowsOf m) ∧
      d1.Le d2 := by
    cases htpl : d1.hasTable "task_templates" with
    | true =>
      exact ⟨d1, rfl, htpl, fun m hm => hm,
        fun m hm => Or.inl hm, fun m _ => ⟨rfl, rfl⟩, Db.Le.refl d1⟩
    | false =>
      obtain ⟨d2, hb, hbself, hbht, hbpres, hble⟩ := taskTemplatesBatch_post d1
      refine ⟨d2, by exact hb, hbself,
        fun m hm => by rw [hbht, hm]; simp, ?_, hbpres, hble⟩
      intro m hm
      rw [hbht] at hm
      by_cases hd : d1.hasTable m = true
      · exact Or.inl hd
      · right
        rw [Bool.not_eq_true] at hd
        rw [hd] at hm
        simp at hm
        exact hm.symm
  obtain ⟨d2, hrun2, htpl2, hmono2, hback2, hpres2, hle2⟩ := step2
  -- step 3: gamification fallback
  have step3 : ∃ d3, (if !(d2.hasTable "user_progress")
        then execBatch d2 gamificationBatch >>= fun dbg =>
          execInsertOrIgnore dbg "user_progress" (some "default")
        else .ok d2) = .ok d3 ∧
      d3.hasTable "user_progress" = true ∧
      (∀ m, d2.hasTable m = true → d3.hasTable m = true) ∧
      (∀ m, d3.hasTable m = true → d2.hasTable m = true ∨
        m ∈ ["user_progress", "badges", "xp_history"]) ∧
      (∀ m, d2.hasTable m = true → d3.colsOf m = d2.colsOf m) ∧
      (∀ m, d2.hasTable m = true → m ≠ "user_progress" →
        d3.rowsOf m = d2.rowsOf m) ∧
      d2.Le d3 := by
    cases hup : d2.hasTable "user_progress" with
    | true =>
      exact ⟨d2, rfl, hup, fun m hm => hm,
        fun m hm => Or.inl hm, fun m _ => rfl, fun m _ _ => rfl, Db.Le.refl d2⟩
    | false =>
      obtain ⟨dg, hg, hgself, hght, hgpres, hgrow, hgle⟩ := gamificationBatch_post d2
      obtain ⟨d3, hi, hiht, hicols, hirows, hiidx, hile⟩ :=
        execInsertOrIgnore_some_post dg "user_progress" "default" hgself
      refine ⟨d3, ?_, ?_, ?_, ?_, ?_, ?_, hgle.trans hile⟩
      · show execBatch d2 gamificationBatch >>= (fun dbg =>
          execInsertOrIgnore dbg "user_progress" (some "default")) = .ok d3
        rw [hg, exceptOkBind]
        exact hi
      · rw [hiht]
        exact hgself
      · intro m hm
        rw [hiht, hght, hm]
        simp
      · intro m hm
        rw [hiht, hght] at hm
        by_cases hd : d2.hasTable m = true
        · exact Or.inl hd
        · right
          rw [Bool.not_eq_true] at hd
          rw [hd] at hm
          simp at hm
          rcases hm with (h | h) | h <;> simp [← h]
      · intro m hm
        rw [hicols]
        exact (hgpres m hm).1
      · intro m hm hmu
        rw [hirows m hmu]
        exact (hgpres m hm).2
  obtain ⟨d3, hrun3, hup3, hmono3, hback3, hcolspres3, hrowpres3, hle3⟩ := step3
  have hruntot : reconTasks db = .ok d3 := by
    unfold reconTasks
    rw [hrun1, exceptOkBind, hrun2, exceptOkBind]
    exact hrun3
  have hT1 : d1.hasTable "tasks" = true := by rw [hht1]; exact hT
  have hT2 : d2.hasTable "tasks" = true := hmono2 _ hT1
  refine ⟨d3, hruntot, ?_, ?_, hup3, ?_, ?_, ?_, ?_, (hle1.trans hle2).trans hle3⟩
  · rw [hcolspres3 "tasks" hT2, (hpres2 "tasks" hT1).1, hcols1]
  · exact hmono3 _ htpl2
  · intro m hm
    exact hmono3 m (hmono2 m (by rw [hht1]; exact hm))
  · intro m hm
    rcases hback3 m hm with hm2 | hnew
    · rcases hback2 m hm2 with hm1 | hnew
      · left
        rw [← hht1]
        exact hm1
      · right
        rw [hnew]
        simp
    · right
      simp at hnew
      rcases hnew with h | h | h <;> (rw [h]; simp)
  · intro m hm hmt
    have hm1 : d1.hasTable m = true := by rw [hht1]; exact hm
    rw [hcolspres3 m (hmono2 m hm1), (hpres2 m hm1).1, hcne1 m hmt]
  · intro m hm hmu
    have hm1 : d1.hasTable m = true := by rw [hht1]; exact hm
    rw [hrowpres3 m (hmono2 m hm1) hmu, (hpres2 m hm1).2, hrows1 m]

/-! #### seedInitialData lemmas -/

theorem seed_of_missing (db : Db) (h : db.hasTable "tasks" = false) :
    seedInitialData db = .ok db := by
  unfold seedInitialData
  rw [h]
  rfl

theorem seed_of_nonempty (db : Db) (h1 : db.hasTable "tasks" = true)
    (h2 : 0 < (db.rowsOf "tasks").length) :
    seedInitialData db = .ok db := by
  unfold seedInitialData
  rw [h1, decide_eq_true h2]
  rfl

theorem seedRows_post : ∀ (k : Nat) (db : Db), db.hasTable "tasks" = true →
    ∃ db2, execBatch db (List.replicate k (Stmt.insertRow "tasks" none)) = .ok db2 ∧
      (∀ m, db2.hasTable m = db.hasTable m) ∧
      (∀ m, db2.colsOf m = db.colsOf m) ∧
      db2.rowsOf "tasks" = db.rowsOf "tasks" ++ List.replicate k none ∧
      (∀ m, m ≠ "tasks" → db2.rowsOf m = db.rowsOf m) ∧
      db.Le db2 := by
  intro k
  induction k with
  | zero =>
    intro db hT
    exact ⟨db, rfl, fun m => rfl, fun m => rfl, by simp, fun m _ => rfl,
      Db.Le.refl db⟩
  | succ k ih =>
    intro db hT
    have hstep : execInsert db "tasks" none = .ok (addRowState db "tasks" none) :=
      execInsert_of_none db "tasks" hT
    obtain ⟨db2, hrun, hht, hcols, hrows, hrne, hle⟩ :=
      ih (addRowState db "tasks" none) (by rw [hasTable_addRowState]; exact hT)
    refine ⟨db2, ?_,
      fun m => (hht m).trans (hasTable_addRowState db "tasks" none m),
      fun m => (hcols m).trans (colsOf_addRowState db "tasks" none m), ?_,
      fun m hm => (hrne m hm).trans
        (rowsOf_addRowState_ne db "tasks" none m (fun he => hm he.symm)),
      (le_addRowState_none db "tasks").trans hle⟩
    · rw [List.replicate_succ,
        execBatch_cons_ok (show execStmt db (Stmt.insertRow "tasks" none)
          = .ok (addRowState db "tasks" none) from hstep)]
      exact hrun
    · rw [hrows, rowsOf_addRowState_self db "tasks" none hT, List.append_assoc]
      rfl

theorem seed_post (db : Db) :
    ∃ db2, seedInitialData db = .ok db2 ∧
      (∀ m, db2.hasTable m = db.hasTable m) ∧
      (∀ m, db2.colsOf m = db.colsOf m) ∧
      (∀ m, m ≠ "tasks" → db2.rowsOf m = db.rowsOf m) ∧
      (db.hasTable "tasks" = true → 0 < (db2.rowsOf "tasks").length) ∧
      ((db.hasTable "tasks" = false ∨ 0 < (db.rowsOf "tasks").length) → db2 = db) ∧
      db.Le db2 := by
  cases hT : db.hasTable "tasks" with
  | false =>
    refine ⟨db, seed_of_missing db hT, fun m => rfl, fun m => rfl, fun m _ => rfl,
      ?_, fun _ => rfl, Db.Le.refl db⟩
    intro h
    cases h
  | true =>
    rcases Nat.eq_zero_or_pos (db.rowsOf "tasks").length with hlen | hlen
    · have hrun : seedInitialData db
          = execBatch db (List.replicate 5 (.insertRow "tasks" none)) := by
        unfold seedInitialData
        rw [hT, decide_eq_false (by omega)]
        rfl
      obtain ⟨db2, hrun5, hht, hcols, hrows, hrne, hle⟩ := seedRows_post 5 db hT
      refine ⟨db2, by rw [hrun]; exact hrun5, hht, hcols, hrne, ?_, ?_, hle⟩
      · intro _
        rw [hrows, List.length_append]
        simp
      · intro hcase
        rcases hcase with hf | hp
        · cases hf
        · omega
    · exact ⟨db, seed_of_nonempty db hT hlen, fun m => rfl, fun m => rfl,
        fun m _ => rfl, fun _ => hlen, fun _ => rfl, Db.Le.refl db⟩

/-! #### initDb composition -/

theorem initDb_eq {fs : Fs} {db0 dbm db2 : Db}
    (h1 : runMigrations fs db0 = .ok dbm) (h2 : seedInitialData dbm = .ok db2) :
    initDb fs db0 = .ok db2 := by
  unfold initDb
  rw [h1, exceptOkBind, h2]

theorem initDb_split {fs : Fs} {db0 db2 : Db} (h : initDb fs db0 = .ok db2) :
    ∃ dbm, runMigrations fs db0 = .ok dbm ∧ seedInitialData dbm = .ok db2 := by
  unfold initDb at h
  cases hr : runMigrations fs db0 with
  | error e =>
    rw [hr, exceptErrorBind] at h
    simp at h
  | ok dbm =>
    rw [hr, exceptOkBind] at h
    exact ⟨dbm, rfl, h⟩

/-! #### The applied snapshot -/

theorem mem_appliedList {db : Db} {f : String} :
    f ∈ appliedList db ↔ f ∈ db.rowIds "migrations" := by
  unfold appliedList
  exact (List.perm_insertionSort _ _).mem_iff

theorem appliedList_contains {db : Db} {f : String}
    (h : f ∈ db.rowIds "migrations") : (appliedList db).contains f = true :=
  List.elem_eq_true_of_mem (mem_appliedList.mpr h)

theorem appliedList_eq_nil_iff {db : Db} :
    appliedList db = [] ↔ db.rowIds "migrations" = [] := by
  unfold appliedList
  constructor
  · intro h
    have hp := List.perm_insertionSort strLeRel (db.rowIds "migrations")
    rw [h] at hp
    exact hp.nil_eq.symm
  · intro h
    rw [h]
    rfl

/-! #### Error propagation through runMigrations -/

theorem runMigrations_att_error {fs : Fs} {db0 db2 : Db} {e : String}
    (hloop : applyLoop fs.contents (appliedList (ensureLedgerTable db0))
        (ensureLedgerTable db0) (migrationFiles fs) = (db2, none))
    (hatt : reconAttachments db2 = .error e) :
    runMigrations fs db0 = .error e := by
  unfold runMigrations
  rw [hloop]
  simp only [exceptOkBind]
  rw [hatt]
  simp only [exceptErrorBind]

theorem runMigrations_rt_error {fs : Fs} {db0 db2 db3 : Db} {e : String}
    (hloop : applyLoop fs.contents (appliedList (ensureLedgerTable db0))
        (ensureLedgerTable db0) (migrationFiles fs) = (db2, none))
    (hatt : reconAttachments db2 = .ok db3)
    (hrt : (if db3.hasTable "tasks" then reconTasks db3 else .ok db3) = .error e) :
    runMigrations fs db0 = .error e := by
  unfold runMigrations
  rw [hloop]
  simp only [exceptOkBind]
  rw [hatt]
  simp only [exceptOkBind]
  rw [hrt]
  simp only [exceptErrorBind]

theorem runMigrations_split {fs : Fs} {db0 dbm : Db}
    (h : runMigrations fs db0 = .ok dbm) :
    ∃ db2 db3 db4,
      applyLoop fs.contents (appliedList (ensureLedgerTable db0))
        (ensureLedgerTable db0) (migrationFiles fs) = (db2, none) ∧
      reconAttachments db2 = .ok db3 ∧
      (if db3.hasTable "tasks" then reconTasks db3 else .ok db3) = .ok db4 ∧
      ((db3.hasTable "tasks" = false ∧
          (appliedList (ensureLedgerTable db0)).isEmpty = true ∧
          execBatch db4 bootstrapBatch = .ok dbm) ∨
        ((db3.hasTable "tasks" = true ∨
          (appliedList (ensureLedgerTable db0)).isEmpty = false) ∧ dbm = db4)) := by
  rcases hloop : applyLoop fs.contents (appliedList (ensureLedgerTable db0))
      (ensureLedgerTable db0) (migrationFiles fs) with ⟨dbl, err⟩
  cases err with
  | some e =>
    rw [runMigrations_loop_error hloop] at h
    cases h
  | none =>
    cases hatt : reconAttachments dbl with
    | error e =>
      rw [runMigrations_att_error hloop hatt] at h
      cases h
    | ok db3 =>
      cases hrt : (if db3.hasTable "tasks" then reconTasks db3 else .ok db3) with
      | error e =>
        rw [runMigrations_rt_error hloop hatt hrt] at h
        cases h
      | ok db4 =>
        rw [runMigrations_eq hloop hatt hrt] at h
        refine ⟨dbl, db3, db4, rfl, hatt, hrt, ?_⟩
        cases hT : db3.hasTable "tasks" with
        | true =>
          rw [hT] at h
          simp at h
          exact Or.inr ⟨Or.inl rfl, h.symm⟩
        | false =>
          rw [hT] at h
          cases hemp : (appliedList (ensureLedgerTable db0)).isEmpty with
          | true =>
            rw [hemp] at h
            simp at h
            exact Or.inl ⟨rfl, rfl, h⟩
          | false =>
            rw [hemp] at h
            simp at h
            exact Or.inr ⟨Or.inr rfl, h.symm⟩

theorem le_reconAttachments {db db2 : Db} (h : reconAttachments db = .ok db2) :
    db.Le db2 := by
  obtain ⟨d, hrun, _, _, _, _, _, hle⟩ := reconAttachments_post db
  have hd : d = db2 := Except.ok.inj (hrun.symm.trans h)
  exact hd ▸ hle

theorem le_reconTasks {db db2 : Db} (hT : db.hasTable "tasks" = true)
    (h : reconTasks db = .ok db2) : db.Le db2 := by
  obtain ⟨d, hrun, _, _, _, _, _, _, _, hle⟩ := reconTasks_post db hT
  have hd : d = db2 := Except.ok.inj (hrun.symm.trans h)
  exact hd ▸ hle

/-! #### The invariant established by a successful startup -/

/-- What holds of the database after `init_db` succeeds: the ledger table
exists, every readable catalog file is recorded, the attachments repair is in
place, the tasks-gated repairs are in place whenever `tasks` exists, the
seeded `tasks` table is non-empty, and an empty ledger implies `tasks`
exists. -/
def Inv (fs : Fs) (db : Db) : Prop :=
  db.hasTable "migrations" = true ∧
  (∀ f ∈ migrationFiles fs, (fs.contents f).isSome → f ∈ db.rowIds "migrations") ∧
  db.hasTable "attachments" = true ∧
  "size" ∈ db.colsOf "attachments" ∧
  (db.hasTable "tasks" = true →
    ((∀ c ∈ reconCriticalCols, c ∈ db.colsOf "tasks") ∧
      db.hasTable "task_templates" = true ∧
      0 < (db.rowsOf "tasks").length)) ∧
  (db.rowIds "migrations" = [] → db.hasTable "tasks" = true)

theorem initDb_inv {fs : Fs} {db0 dbA : Db} (h : initDb fs db0 = .ok dbA) :
    Inv fs dbA := by
  obtain ⟨dbm, hrm, hseed⟩ := initDb_split h
  obtain ⟨db2, db3, db4, hloop, hatt, hrt, hboot⟩ := runMigrations_split hrm
  obtain ⟨dbs, hseedrun, sht, scols, srne, spos, sid, sle⟩ := seed_post dbm
  have hdbs : dbA = dbs := Except.ok.inj (hseed.symm.trans hseedrun)
  subst hdbs
  -- identify the attachments reconciler output
  obtain ⟨d3, hattrun, aht, asz, ahtAll, acne, arows, ale⟩ := reconAttachments_post db2
  have hd3 : db3 = d3 := Except.ok.inj (hatt.symm.trans hattrun)
  subst hd3
  -- basic Le chains
  have le12 : (ensureLedgerTable db0).Le db2 := applyLoop_ok_le _ _ _ hloop
  have le34 : db3.Le db4 := by
    cases hT : db3.hasTable "tasks" with
    | true =>
      rw [hT] at hrt
      simp at hrt
      exact le_reconTasks hT hrt
    | false =>
      rw [hT] at hrt
      simp at hrt
      exact hrt ▸ Db.Le.refl db3
  have le4m : db4.Le dbm := by
    rcases hboot with ⟨_, _, hb⟩ | ⟨_, heq⟩
    · exact le_execBatch _ _ _ hb
    · exact heq ▸ Db.Le.refl db4
  have le3A : db3.Le dbA := (le34.trans le4m).trans sle
  have le2A : db2.Le dbA := (ale).trans le3A
  have le1A : (ensureLedgerTable db0).Le dbA := le12.trans le2A
  refine ⟨?_, ?_, ?_, ?_, ?_, ?_⟩
  · exact le1A.ht "migrations" (hasTable_ensureLedgerTable db0)
  · intro f hf hsome
    rcases applyLoop_recorded _ _ _ hloop f hf hsome with hap | hrec
    · have hm1 : f ∈ (ensureLedgerTable db0).rowIds "migrations" :=
        mem_appliedList.mp (by simpa using hap)
      exact le1A.rowMem "migrations" f hm1
    · exact le2A.rowMem "migrations" f hrec
  · exact le3A.ht "attachments" aht
  · exact le3A.colsMem "attachments" "size" asz
  · intro hTA
    cases hT : db3.hasTable "tasks" with
    | true =>
      rw [hT] at hrt
      simp at hrt
      obtain ⟨d4, hrtRun, rcols, rtpl, rup, rmono, rback, rcne, rrows, rle⟩ :=
        reconTasks_post db3 hT
      have hd4 : db4 = d4 := Except.ok.inj (hrt.symm.trans hrtRun)
      subst hd4
      have hT4 : db4.hasTable "tasks" = true := rmono "tasks" hT
      have le4A : db4.Le dbA := le4m.trans sle
      refine ⟨?_, ?_, ?_⟩
      · intro c hc
        apply le4A.colsMem "tasks" c
        rw [rcols]
        by_cases hcin : c ∈ db3.colsOf "tasks"
        · exact List.mem_append_left _ hcin
        · refine List.mem_append_right _ ?_
          rw [List.mem_filter]
          exact ⟨hc, by simpa using hcin⟩
      · exact le4A.ht "task_templates" rtpl
      · apply spos
        rcases hboot with ⟨hf, _, _⟩ | ⟨_, heq⟩
        · rw [hT] at hf
          cases hf
        · rw [heq]
          exact hT4
    | false =>
      rw [hT] at hrt
      simp at hrt
      subst hrt
      rcases hboot with ⟨_, _, hb⟩ | ⟨_, heq⟩
      · obtain ⟨dm, hbRun, bnew, bback, bpres, btasks, bidx, ble⟩ :=
          bootstrapBatch_post db3
        have hdm : dbm = dm := Except.ok.inj (hb.symm.trans hbRun)
        subst hdm
        have hTm : dbm.hasTable "tasks" = true := by
          apply bnew
          unfold bootstrapTables
          simp
        obtain ⟨btc, btr⟩ := btasks hT
        refine ⟨?_, ?_, ?_⟩
        · intro c hc
          have : c ∈ dbm.colsOf "tasks" := by
            rw [btc]
            unfold reconCriticalCols at hc
            unfold bootstrapTasksCols
            simp at hc
            rcases hc with h | h | h | h | h <;> (subst h; simp)
          rw [← scols "tasks"] at this
          exact this
        · have : dbm.hasTable "task_templates" = true := by
            apply bnew
            unfold bootstrapTables
            simp
          rw [← sht "task_templates"] at this
          exact this
        · exact spos hTm
      · -- no bootstrap and tasks absent: tasks cannot exist afterwards
        rw [heq] at sht
        have : dbA.hasTable "tasks" = db3.hasTable "tasks" := sht "tasks"
        rw [hTA, hT] at this
        cases this
  · intro hnil
    cases hT : db3.hasTable "tasks" with
    | true =>
      have le3A2 : db3.Le dbA := le3A
      exact le3A2.ht "tasks" hT
    | false =>
      rcases hboot with ⟨_, _, hb⟩ | ⟨hcase, heq⟩
      · obtain ⟨dm, hbRun, bnew, _, _, _, _, _⟩ := bootstrapBatch_post db4
        have hdm : dbm = dm := Except.ok.inj (hb.symm.trans hbRun)
        subst hdm
        have hTm : dbm.hasTable "tasks" = true := by
          apply bnew
          unfold bootstrapTables
          simp
        rw [← sht "tasks"] at hTm
        exact hTm
      · rcases hcase with hTT | hemp
        · rw [hT] at hTT
          cases hTT
        · have hne : (ensureLedgerTable db0).rowIds "migrations" ≠ [] := by
            intro hnil0
            rw [← appliedList_eq_nil_iff] at hnil0
            rw [hnil0] at hemp
            simp at hemp
          have := le1A.rowIdsNeNil "migrations" hne
          exact absurd hnil this

/-! #### The second run: identity when nothing is missing -/

theorem initDb_id {fs : Fs} {db : Db} (hinv : Inv fs db)
    (hup : db.hasTable "tasks" = true → db.hasTable "user_progress" = true) :
    initDb fs db = .ok db := by
  obtain ⟨hmig, hrec, hatt, hsize, htasks, hnil⟩ := hinv
  have hens : ensureLedgerTable db = db := ensureLedgerTable_of_has db hmig
  have hloop : applyLoop fs.contents (appliedList (ensureLedgerTable db))
      (ensureLedgerTable db) (migrationFiles fs) = (ensureLedgerTable db, none) := by
    apply applyLoop_skip_all
    intro f hf
    cases hc : fs.contents f with
    | none => exact Or.inr rfl
    | some body =>
      left
      rw [hens]
      exact appliedList_contains (hrec f hf (by rw [hc]; rfl))
  have hattid : reconAttachments db = .ok db :=
    reconAttachments_id db hatt (by simpa using hsize)
  have hrtid : (if db.hasTable "tasks" then reconTasks db else .ok db) = .ok db := by
    cases hT : db.hasTable "tasks" with
    | true =>
      obtain ⟨hcols, htpl, hpos⟩ := htasks hT
      exact reconTasks_id db (fun c hc => by simpa using hcols c hc) htpl (hup hT)
    | false => rfl
  have hgate : (!db.hasTable "tasks" && (appliedList db).isEmpty) = false := by
    cases hT : db.hasTable "tasks" with
    | true => rfl
    | false =>
      have hne : appliedList db ≠ [] := by
        intro hx
        have h0 := hnil (appliedList_eq_nil_iff.mp hx)
        rw [hT] at h0
        cases h0
      cases hl : appliedList db with
      | nil => exact absurd hl hne
      | cons a l => rfl
  have hrm : runMigrations fs db = .ok db := by
    have heq := @runMigrations_eq fs db _ _ _ hloop
      (by rw [hens]; exact hattid) hrtid
    rw [hens, hgate] at heq
    simpa using heq
  have hseedid : seedInitialData db = .ok db := by
    cases hT : db.hasTable "tasks" with
    | true => exact seed_of_nonempty db hT (htasks hT).2.2
    | false => exact seed_of_missing db hT
  exact initDb_eq hrm hseedid

/-! #### The second run after a bootstrap: gamification tables get added -/

theorem initDb_gam {fs : Fs} {db : Db} (hinv : Inv fs db)
    (hT : db.hasTable "tasks" = true) (hupf : db.hasTable "user_progress" = false) :
    ∃ db2, initDb fs db = .ok db2 ∧
      (∀ m, db.hasTable m = true →
        db2.hasTable m = true ∧ db2.colsOf m = db.colsOf m) ∧
      (∀ m, db2.hasTable m = true → db.hasTable m = true ∨
        m ∈ ["user_progress", "badges", "xp_history"]) ∧
      db2.hasTable "user_progress" = true ∧
      Inv fs db2 ∧
      (db2.hasTable "tasks" = true → db2.hasTable "user_progress" = true) := by
  obtain ⟨hmig, hrec, hatt, hsize, htasks, hnil⟩ := hinv
  obtain ⟨hcols, htpl, hpos⟩ := htasks hT
  have hens : ensureLedgerTable db = db := ensureLedgerTable_of_has db hmig
  have hloop : applyLoop fs.contents (appliedList (ensureLedgerTable db))
      (ensureLedgerTable db) (migrationFiles fs) = (ensureLedgerTable db, none) := by
    apply applyLoop_skip_all
    intro f hf
    cases hc : fs.contents f with
    | none => exact Or.inr rfl
    | some body =>
      left
      rw [hens]
      exact appliedList_contains (hrec f hf (by rw [hc]; rfl))
  have hattid : reconAttachments db = .ok db :=
    reconAttachments_id db hatt (by simpa using hsize)
  obtain ⟨d4, hrtRun, rcols, rtpl, rup, rmono, rback, rcne, rrows, rle⟩ :=
    reconTasks_post db hT
  have hfilter : reconCriticalCols.filter
      (fun c => !(db.colsOf "tasks").contains c) = [] := by
    rw [List.filter_eq_nil_iff]
    intro c hc
    have := hcols c hc
    simp [this]
  have rcolsEq : d4.colsOf "tasks" = db.colsOf "tasks" := by
    rw [rcols, hfilter]
    simp
  have hrtif : (if db.hasTable "tasks" then reconTasks db else .ok db) = .ok d4 := by
    rw [hT]
    simpa using hrtRun
  have hgate : (!db.hasTable "tasks" && (appliedList db).isEmpty) = false := by
    rw [hT]
    rfl
  have hrm : runMigrations fs db = .ok d4 := by
    have heq := @runMigrations_eq fs db _ _ _ hloop
      (by rw [hens]; exact hattid) hrtif
    rw [hens, hgate] at heq
    simpa using heq
  have hT4 : d4.hasTable "tasks" = true := rmono "tasks" hT
  have hrows4 : d4.rowsOf "tasks" = db.rowsOf "tasks" :=
    rrows "tasks" hT (by decide)
  have hpos4 : 0 < (d4.rowsOf "tasks").length := by
    rw [hrows4]
    exact hpos
  have hseedid : seedInitialData d4 = .ok d4 := seed_of_nonempty d4 hT4 hpos4
  have hcolspres : ∀ m, db.hasTable m = true → d4.colsOf m = db.colsOf m := by
    intro m hm
    by_cases hmt : m = "tasks"
    · subst hmt
      exact rcolsEq
    · exact rcne m hm hmt
  have hrowspres : ∀ m, db.hasTable m = true → m ≠ "user_progress" →
      d4.rowsOf m = db.rowsOf m := rrows
  refine ⟨d4, initDb_eq hrm hseedid, ?_, ?_, rup, ?_, fun _ => rup⟩
  · intro m hm
    exact ⟨rmono m hm, hcolspres m hm⟩
  · intro m hm
    rcases rback m hm with hdb | hnew
    · exact Or.inl hdb
    · simp at hnew
      rcases hnew with h | h | h | h
      · subst h
        exact Or.inl htpl
      · subst h
        right
        simp
      · subst h
        right
        simp
      · subst h
        right
        simp
  · -- Inv is preserved by the gamification-adding run
    have hrowIds : d4.rowIds "migrations" = db.rowIds "migrations" := by
      unfold Db.rowIds
      rw [hrowspres "migrations" hmig (by decide)]
    refine ⟨rmono "migrations" hmig, ?_, rmono "attachments" hatt, ?_, ?_, ?_⟩
    · intro f hf hsome
      rw [hrowIds]
      exact hrec f hf hsome
    · rw [hcolspres "attachments" hatt]
      exact hsize
    · intro _
      refine ⟨?_, rmono "task_templates" htpl, ?_⟩
      · intro c hc
        rw [rcolsEq]
        exact hcols c hc
      · rw [hrows4]
        exact hpos
    · intro _
      exact hT4

/-! ### Claim C1 -/

/-- The database produced by the first startup run on a fresh file with an
empty catalog. -/
def run1Db : Db :=
  match initDb emptyFs emptyDb with
  | .ok d => d
  | .error _ => emptyDb

/-- The database produced by the second startup run. -/
def run2Db : Db :=
  match initDb emptyFs run1Db with
  | .ok d => d
  | .error _ => emptyDb

/-- C1 (counterexample): starting from a fresh empty database file with an
empty migration catalog, the first startup run succeeds, the second startup
run succeeds, but the live schema after the second run differs from the
schema after the first run — the second run adds the `user_progress`,
`badges` and `xp_history` tables, which the first run's bootstrap fallback
did not create.  This refutes the claim that the schema after the second run
is identical to the schema after the first run for every starting state on
which the first run succeeds. -/
theorem c1_counterexample :
    initDb emptyFs emptyDb = .ok run1Db ∧
    initDb emptyFs run1Db = .ok run2Db ∧
    schemaOf run2Db ≠ schemaOf run1Db := by
  refine ⟨rfl, rfl, ?_⟩
  decide

/-- C1 (amended): running the full startup sequence a second time always
completes without error; the second run preserves every existing table and
its exact column list and creates no table beyond the gamification trio
`user_progress`, `badges`, `xp_history`; when the first run left
`user_progress` present, or left the `tasks` table absent, the second run
returns the database completely unchanged; and the second run's output is a
fixed point of the startup sequence (a third run changes nothing), so the
schema is stable from the second run onward. -/
theorem c1_amended_idempotence {fs : Fs} {db0 dbA : Db}
    (h : initDb fs db0 = .ok dbA) :
    ∃ dbB, initDb fs dbA = .ok dbB ∧
      (dbA.hasTable "user_progress" = true ∨ dbA.hasTable "tasks" = false →
        dbB = dbA) ∧
      (∀ m, dbA.hasTable m = true →
        dbB.hasTable m = true ∧ dbB.colsOf m = dbA.colsOf m) ∧
      (∀ m, dbB.hasTable m = true → dbA.hasTable m = true ∨
        m ∈ ["user_progress", "badges", "xp_history"]) ∧
      initDb fs dbB = .ok dbB := by
  have hinv := initDb_inv h
  cases hup : dbA.hasTable "user_progress" with
  | true =>
    have hid := initDb_id hinv (fun _ => hup)
    exact ⟨dbA, hid, fun _ => rfl, fun m hm => ⟨hm, rfl⟩, fun m hm => Or.inl hm, hid⟩
  | false =>
    cases hT : dbA.hasTable "tasks" with
    | false =>
      have hid := initDb_id hinv (fun hx => by rw [hT] at hx; cases hx)
      exact ⟨dbA, hid, fun _ => rfl, fun m hm => ⟨hm, rfl⟩, fun m hm => Or.inl hm, hid⟩
    | true =>
      obtain ⟨dbB, hrun, hpres, hback, hupB, hinvB, hupT⟩ := initDb_gam hinv hT hup
      refine ⟨dbB, hrun, ?_, hpres, hback, initDb_id hinvB hupT⟩
      intro hc
      rcases hc with h1 | h1 <;> cases h1

/-- C1 (witness): the amended theorem applied to the concrete fresh-file
run. -/
theorem c1_amended_idempotence_witness :
    ∃ dbB, initDb emptyFs run1Db = .ok dbB ∧
      (run1Db.hasTable "user_progress" = true ∨ run1Db.hasTable "tasks" = false →
        dbB = run1Db) ∧
      (∀ m, run1Db.hasTable m = true →
        dbB.hasTable m = true ∧ dbB.colsOf m = run1Db.colsOf m) ∧
      (∀ m, dbB.hasTable m = true → run1Db.hasTable m = true ∨
        m ∈ ["user_progress", "badges", "xp_history"]) ∧
      initDb emptyFs dbB = .ok dbB :=
  @c1_amended_idempotence emptyFs emptyDb run1Db rfl

theorem le_initDb {fs : Fs} {db0 db1 : Db} (h : initDb fs db0 = .ok db1) :
    db0.Le db1 := by
  obtain ⟨dbm, hrm, hseed⟩ := initDb_split h
  obtain ⟨db2, db3, db4, hloop, hatt, hrt, hboot⟩ := runMigrations_split hrm
  obtain ⟨dbs, hseedrun, _, _, _, _, _, sle⟩ := seed_post dbm
  have hdbs : db1 = dbs := Except.ok.inj (hseed.symm.trans hseedrun)
  subst hdbs
  have le34 : db3.Le db4 := by
    cases hT : db3.hasTable "tasks" with
    | true =>
      rw [hT] at hrt
      simp at hrt
      exact le_reconTasks hT hrt
    | false =>
      rw [hT] at hrt
      simp at hrt
      exact hrt ▸ Db.Le.refl db3
  have le4m : db4.Le dbm := by
    rcases hboot with ⟨_, _, hb⟩ | ⟨_, heq⟩
    · exact le_execBatch _ _ _ hb
    · exact heq ▸ Db.Le.refl db4
  exact ((((le_ensureLedgerTable db0).trans (applyLoop_ok_le _ _ _ hloop)).trans
    (le_reconAttachments hatt)).trans (le34.trans le4m)).trans sle

/-! ### Claim C2 -/

/-- C2: for a pending unit whose file body is readable, the loop body is one
transaction: when it returns without error, the unit's name is in the ledger
and the final state is exactly the unit's schema effects followed by the
ledger insert, committed together; when the transaction fails, the returned
state is exactly the state from before the transaction — neither the schema
change nor the ledger row survives (rollback). -/
theorem c2_ledger_iff_committed :
    (∀ (contents : String → Option (List Stmt)) (applied : List String)
      (db db2 : Db) (file : String) (body : List Stmt),
      applied.contains file = false → contents file = some body →
      stepUnit contents applied db file = (db2, none) →
      file ∈ db2.rowIds "migrations" ∧
        ∃ db1, execUnit db file body = .ok db1 ∧
          execInsert db1 "migrations" (some file) = .ok db2) ∧
    (∀ (contents : String → Option (List Stmt)) (applied : List String)
      (db db2 : Db) (file e : String),
      stepUnit contents applied db file = (db2, some e) → db2 = db) := by
  constructor
  · intro contents applied db db2 file body ha hc hstep
    cases ht : txMigration db file body with
    | error e =>
      rw [stepUnit_tx_error ha hc ht] at hstep
      simp at hstep
    | ok d =>
      rw [stepUnit_tx_ok ha hc ht] at hstep
      have hd : d = db2 := by
        have := (Prod.mk.injEq d none db2 none).mp hstep
        exact this.1
      subst hd
      refine ⟨(txMigration_ok ht).2, ?_⟩
      unfold txMigration at ht
      cases hu : execUnit db file body with
      | error e =>
        rw [hu, exceptErrorBind] at ht
        cases ht
      | ok db1 =>
        rw [hu, exceptOkBind] at ht
        exact ⟨db1, rfl, ht⟩
  · intro contents applied db db2 file e hstep
    rcases @stepUnit_cases contents applied db file with
      ⟨hs, _⟩ | ⟨b, d, _, _, _, hs⟩ | ⟨b, e2, _, _, _, hs⟩
    · rw [hs] at hstep
      simp at hstep
    · rw [hs] at hstep
      simp at hstep
    · rw [hs] at hstep
      have := (Prod.mk.injEq db (some e2) db2 (some e)).mp hstep
      exact this.1.symm

/-- A database holding just an empty migrations ledger. -/
def ledgerDb : Db := ⟨[⟨"migrations", migrationsTableCols, []⟩], []⟩

/-- C2 (witness): the committed case at a concrete pending unit with an
empty body. -/
theorem c2_ledger_iff_committed_witness :
    "0001_a.sql" ∈ (addRowState ledgerDb "migrations"
      (some "0001_a.sql")).rowIds "migrations" ∧
    ∃ db1, execUnit ledgerDb "0001_a.sql" [] = .ok db1 ∧
      execInsert db1 "migrations" (some "0001_a.sql")
        = .ok (addRowState ledgerDb "migrations" (some "0001_a.sql")) :=
  c2_ledger_iff_committed.1 (fun _ => some []) [] ledgerDb
    (addRowState ledgerDb "migrations" (some "0001_a.sql")) "0001_a.sql" []
    rfl rfl rfl

/-! ### Claim C3 -/

/-- C3: the ledger's uniqueness constraint — inserting a migration name that
is already recorded fails with a uniqueness violation; the engine skips (is
the identity on) any catalog file already in the applied snapshot it read at
the start of the run; and any number of startup sequences keeps the ledger
names duplicate-free. -/
theorem c3_at_most_once :
    (∀ (db : Db) (n : String), n ∈ db.rowIds "migrations" →
      execInsert db "migrations" (some n)
        = .error ("UNIQUE constraint failed: " ++ n)) ∧
    (∀ (contents : String → Option (List Stmt)) (applied : List String)
      (db : Db) (f : String), applied.contains f = true →
      stepUnit contents applied db f = (db, none)) ∧
    (∀ (fs : Fs) (db0 db1 : Db), initDb fs db0 = .ok db1 →
      (db0.rowIds "migrations").Nodup → (db1.rowIds "migrations").Nodup) := by
  refine ⟨?_, ?_, ?_⟩
  · intro db n hmem
    have hht : db.hasTable "migrations" = true := by
      unfold Db.hasTable
      cases hl : db.lookup "migrations" with
      | some t => rfl
      | none =>
        unfold Db.rowIds Db.rowsOf at hmem
        rw [hl] at hmem
        simp at hmem
    exact execInsert_of_dup db "migrations" n hht (by simpa using hmem)
  · intro contents applied db f ha
    exact stepUnit_applied ha
  · intro fs db0 db1 h hnd
    exact (le_initDb h).nodupRowIds "migrations" hnd

/-- A ledger already holding one recorded migration. -/
def dupLedgerDb : Db :=
  ⟨[⟨"migrations", migrationsTableCols, [some "0001_a.sql"]⟩], []⟩

/-- C3 (witness): a second insert of an already-recorded name fails with the
uniqueness violation. -/
theorem c3_at_most_once_witness :
    execInsert dupLedgerDb "migrations" (some "0001_a.sql")
      = .error ("UNIQUE constraint failed: " ++ "0001_a.sql") :=
  c3_at_most_once.1 dupLedgerDb "0001_a.sql" (by decide)

/-! ### Claim C4 -/

/-- A filesystem where the first catalog file cannot be read and the second
one can. -/
def fsC4 : Fs :=
  ⟨["0001_a.sql", "0002_b.sql"],
    fun f => if f == "0002_b.sql"
      then some [Stmt.createTable true "projects" projectsCols] else none⟩

/-- The database produced by running the migrations against `fsC4`. -/
def c4Db : Db :=
  match runMigrations fsC4 emptyDb with
  | .ok d => d
  | .error _ => emptyDb

/-- C4 (counterexample): with a pending unit `0001_a.sql` whose file body
cannot be read, the run does NOT fail: it silently skips that unit (no
ledger entry), continues with `0002_b.sql`, applies and records it, and
returns success.  This refutes the claim that a failure to read a pending
unit's file body is fatal and stops later units from being attempted. -/
theorem c4_counterexample :
    runMigrations fsC4 emptyDb = .ok c4Db ∧
    "0001_a.sql" ∉ c4Db.rowIds "migrations" ∧
    "0002_b.sql" ∈ c4Db.rowIds "migrations" := by
  refine ⟨rfl, ?_, ?_⟩ <;> decide

/-- C4 (amended): every SQL failure while executing a pending unit's
transaction is fatal — the loop stops at that unit with the pre-transaction
state (rollback, no ledger entry) and `run_migrations` propagates the error;
but a failure to read a pending unit's file body is NOT fatal: the unit is
silently skipped (left unrecorded) and the loop continues with the remaining
units. -/
theorem c4_amended_failure_handling :
    (∀ (contents : String → Option (List Stmt)) (applied : List String)
      (db : Db) (f : String) (rest : List String) (body : List Stmt) (e : String),
      applied.contains f = false → contents f = some body →
      txMigration db f body = .error e →
      applyLoop contents applied db (f :: rest) = (db, some e)) ∧
    (∀ (fs : Fs) (db0 dbm : Db) (e : String),
      applyLoop fs.contents (appliedList (ensureLedgerTable db0))
        (ensureLedgerTable db0) (migrationFiles fs) = (dbm, some e) →
      runMigrations fs db0 = .error e) ∧
    (∀ (contents : String → Option (List Stmt)) (applied : List String)
      (db : Db) (f : String) (rest : List String),
      applied.contains f = false → contents f = none →
      applyLoop contents applied db (f :: rest)
        = applyLoop contents applied db rest) :=
  ⟨fun _ _ _ _ _ _ _ ha hc ht => applyLoop_error_head ha hc ht,
   fun _ _ _ _ hloop => runMigrations_loop_error hloop,
   fun _ _ _ _ _ ha hc => applyLoop_read_skip ha hc⟩

/-- C4 (witness): a unit whose SQL errors (adding a column to a missing
table) halts the loop with the pre-transaction state and no later unit is
attempted. -/
theorem c4_amended_failure_handling_witness :
    applyLoop (fun _ => some [Stmt.addColumn "tasks" "boom"]) [] ledgerDb
      ["0001_a.sql", "0002_b.sql"]
      = (ledgerDb, some ("no such table: " ++ "tasks")) :=
  c4_amended_failure_handling.1 (fun _ => some [Stmt.addColumn "tasks" "boom"])
    [] ledgerDb "0001_a.sql" ["0002_b.sql"] [Stmt.addColumn "tasks" "boom"]
    ("no such table: " ++ "tasks") rfl rfl rfl

/-! #### strLe is the lexicographic string order -/

theorem charListLe_total : ∀ as bs, charListLe as bs = true ∨ charListLe bs as = true := by
  intro as
  induction as with
  | nil =>
    intro bs
    left
    rfl
  | cons a as ih =>
    intro bs
    cases bs with
    | nil =>
      right
      rfl
    | cons b bs =>
      by_cases h1 : a.val.toNat < b.val.toNat
      · left
        simp [charListLe, h1]
      · by_cases h2 : b.val.toNat < a.val.toNat
        · right
          simp [charListLe, h1, h2]
        · rcases ih bs with h | h
          · left
            simp [charListLe, h1, h2, h]
          · right
            simp [charListLe, h1, h2, h]

theorem charListLe_trans : ∀ as bs cs, charListLe as bs = true →
    charListLe bs cs = true → charListLe as cs = true := by
  intro as
  induction as with
  | nil =>
    intro bs cs _ _
    rfl
  | cons a as ih =>
    intro bs cs hab hbc
    cases bs with
    | nil => simp [charListLe] at hab
    | cons b bs =>
      cases cs with
      | nil => simp [charListLe] at hbc
      | cons c cs =>
        by_cases h1 : a.val.toNat < b.val.toNat
        · by_cases hcb : c.val.toNat < b.val.toNat
          · have hb2 : ¬ b.val.toNat < c.val.toNat := by omega
            simp [charListLe, hb2, hcb] at hbc
          · have h3 : a.val.toNat < c.val.toNat := by omega
            simp [charListLe, h3]
        · have hba : ¬ b.val.toNat < a.val.toNat := by
            by_cases hba : b.val.toNat < a.val.toNat
            · simp [charListLe, h1, hba] at hab
            · exact hba
          have hrecab : charListLe as bs = true := by
            simpa [charListLe, h1, hba] using hab
          by_cases h2 : b.val.toNat < c.val.toNat
          · have h3 : a.val.toNat < c.val.toNat := by omega
            simp [charListLe, h3]
          · have hcb : ¬ c.val.toNat < b.val.toNat := by
              by_cases hcb : c.val.toNat < b.val.toNat
              · simp [charListLe, h2, hcb] at hbc
              · exact hcb
            have hrecbc : charListLe bs cs = true := by
              simpa [charListLe, h2, hcb] using hbc
            have h3 : ¬ a.val.toNat < c.val.toNat := by omega
            have h4 : ¬ c.val.toNat < a.val.toNat := by omega
            simp [charListLe, h3, h4]
            exact ih bs cs hrecab hrecbc

instance : IsTotal String strLeRel :=
  ⟨fun a b => charListLe_total a.data b.data⟩

instance : IsTrans String strLeRel :=
  ⟨fun a b c => charListLe_trans a.data b.data c.data⟩

theorem charListLe_iff_not_lt : ∀ as bs : List Char,
    charListLe as bs = true ↔ ¬ List.lt bs as := by
  intro as
  induction as with
  | nil =>
    intro bs
    constructor
    · intro _ h
      cases h
    · intro _
      rfl
  | cons a as ih =>
    intro bs
    cases bs with
    | nil =>
      constructor
      · intro h
        simp [charListLe] at h
      · intro h
        exact absurd (List.lt.nil a as) h
    | cons b bs =>
      have hlt_iff : ∀ (x y : Char), x < y ↔ x.val.toNat < y.val.toNat :=
        fun x y => Iff.rfl
      constructor
      · intro h hlt
        cases hlt with
        | head _ _ hba =>
          have hn : b.val.toNat < a.val.toNat := (hlt_iff b a).mp hba
          have h1 : ¬ a.val.toNat < b.val.toNat := by omega
          simp [charListLe, h1, hn] at h
        | tail hba hab htail =>
          have h1 : ¬ a.val.toNat < b.val.toNat :=
            fun hc => hab ((hlt_iff a b).mpr hc)
          have h2 : ¬ b.val.toNat < a.val.toNat :=
            fun hc => hba ((hlt_iff b a).mpr hc)
          exact (ih bs).mp (by simpa [charListLe, h1, h2] using h) htail
      · intro h
        by_cases h1 : a.val.toNat < b.val.toNat
        · simp [charListLe, h1]
        · by_cases h2 : b.val.toNat < a.val.toNat
          · exact absurd (List.lt.head bs as ((hlt_iff b a).mpr h2)) h
          · have hnb : ¬ b < a := fun hx => h2 ((hlt_iff b a).mp hx)
            have hna : ¬ a < b := fun hx => h1 ((hlt_iff a b).mp hx)
            have hnrec : ¬ List.lt bs as :=
              fun hc => h (List.lt.tail hnb hna hc)
            simp [charListLe, h1, h2]
            exact (ih bs).mpr hnrec

/-- The comparator driving the catalog sort agrees with the lexicographic
`≤` order on strings. -/
theorem strLe_iff_le (a b : String) : strLe a b = true ↔ a ≤ b := by
  rw [String.le_iff_toList_le, ← not_lt]
  constructor
  · intro hx hlt
    exact (charListLe_iff_not_lt a.data b.data).mp hx
      ((List.lt_iff_lex_lt _ _).mpr hlt)
  · intro hx
    exact (charListLe_iff_not_lt a.data b.data).mpr
      (fun hc => hx ((List.lt_iff_lex_lt _ _).mp hc))

/-! ### Claim C5 -/

theorem mem_append_filter_of_mem {c : String} {cs old : List String}
    (hc : c ∈ cs) : c ∈ old ++ cs.filter (fun x => !old.contains x) := by
  by_cases hm : c ∈ old
  · exact List.mem_append_left _ hm
  · refine List.mem_append_right _ (List.mem_filter.mpr ⟨hc, ?_⟩)
    have hcon : old.contains c = false := by
      cases h : old.contains c with
      | false => rfl
      | true => exact absurd (by simpa using h) hm
    rw [hcon]
    rfl

/-- C5: the defensive reconciler establishes the hardcoded critical schema
facts from the live schema alone (no ledger input): whenever the migration
loop has completed and the `tasks` table exists, the tasks reconciler
succeeds and afterwards every critical column (`recurrence_type`,
`recurrence_interval`, `recurrence_parent_id`, `reminder_minutes_before`,
`notification_repeat`) is present on `tasks` — regardless of what the ledger
records, so in particular also when `0004_add_recurrence.sql` is already
recorded while a column is missing; the attachments reconciler always
succeeds and afterwards `attachments` exists with a `size` column; and each
repair is a no-op (identity) when its fact already holds. -/
theorem c5_reconciler :
    (∀ db : Db, db.hasTable "tasks" = true →
      ∃ db2, reconTasks db = .ok db2 ∧
        ∀ c ∈ reconCriticalCols, c ∈ db2.colsOf "tasks") ∧
    (∀ db : Db, ∃ db2, reconAttachments db = .ok db2 ∧
      db2.hasTable "attachments" = true ∧ "size" ∈ db2.colsOf "attachments") ∧
    (∀ db : Db, db.hasTable "attachments" = true →
      (db.colsOf "attachments").contains "size" = true →
      reconAttachments db = .ok db) ∧
    (∀ db : Db, (∀ c ∈ reconCriticalCols, (db.colsOf "tasks").contains c = true) →
      db.hasTable "task_templates" = true → db.hasTable "user_progress" = true →
      reconTasks db = .ok db) := by
  refine ⟨?_, ?_, reconAttachments_id, reconTasks_id⟩
  · intro db hT
    obtain ⟨db2, hrun, hcols, _, _, _, _, _, _, _⟩ := reconTasks_post db hT
    refine ⟨db2, hrun, fun c hc => ?_⟩
    rw [hcols]
    exact mem_append_filter_of_mem hc
  · intro db
    obtain ⟨db2, hrun, hht, hsz, _, _, _, _⟩ := reconAttachments_post db
    exact ⟨db2, hrun, hht, hsz⟩

/-- A database whose ledger already records `0004_add_recurrence.sql` while
the live `tasks` table lacks all the recurrence columns (corrupted or
partial prior run). -/
def c5Db : Db :=
  ⟨[⟨"migrations", migrationsTableCols, [some "0004_add_recurrence.sql"]⟩,
    ⟨"tasks", ["id", "title"], []⟩], []⟩

/-- A database in which every critical schema fact already holds. -/
def c5FullDb : Db :=
  ⟨[⟨"tasks", "id" :: reconCriticalCols, []⟩,
    ⟨"attachments", attachmentsBaseCols, []⟩,
    ⟨"task_templates", taskTemplatesCols, []⟩,
    ⟨"user_progress", userProgressCols, [some "default"]⟩], []⟩

/-- C5 (witness): the reconciler repairs the recurrence columns even though
the ledger already records 0004, and is the identity on a database where
every critical fact holds. -/
theorem c5_reconciler_witness :
    (c5Db.hasTable "tasks" = true ∧
      ∃ db2, reconTasks c5Db = .ok db2 ∧
        ∀ c ∈ reconCriticalCols, c ∈ db2.colsOf "tasks") ∧
    reconAttachments c5FullDb = .ok c5FullDb ∧
    reconTasks c5FullDb = .ok c5FullDb :=
  ⟨⟨by decide, c5_reconciler.1 c5Db (by decide)⟩,
   c5_reconciler.2.2.1 c5FullDb (by decide) (by decide),
   c5_reconciler.2.2.2 c5FullDb (by decide) (by decide) (by decide)⟩

/-! ### Claim C6 -/

/-- The database produced by `run_migrations` on a fresh empty file with an
empty catalog (before seeding). -/
def bootDb : Db :=
  match runMigrations emptyFs emptyDb with
  | .ok d => d
  | .error _ => emptyDb

/-- C6: the bootstrap fallback runs exactly when the `tasks` table is absent
at its check point (after the attachments reconciler) and the applied
snapshot of the ledger is empty — in every successful run the final state is
the bootstrap batch applied to the pre-bootstrap state under that gate, and
the pre-bootstrap state otherwise; the bootstrap batch always succeeds and
creates every baseline table and index; and on a fresh empty database with
an empty catalog the migration phase yields the fully structured baseline
schema with zero domain rows and an empty ledger. -/
theorem c6_bootstrap_gating :
    (∀ (fs : Fs) (db0 dbm : Db), runMigrations fs db0 = .ok dbm →
      ∃ db2 db3 db4,
        applyLoop fs.contents (appliedList (ensureLedgerTable db0))
          (ensureLedgerTable db0) (migrationFiles fs) = (db2, none) ∧
        reconAttachments db2 = .ok db3 ∧
        (if db3.hasTable "tasks" then reconTasks db3 else .ok db3) = .ok db4 ∧
        ((db3.hasTable "tasks" = false ∧
            (appliedList (ensureLedgerTable db0)).isEmpty = true ∧
            execBatch db4 bootstrapBatch = .ok dbm) ∨
          ((db3.hasTable "tasks" = true ∨
            (appliedList (ensureLedgerTable db0)).isEmpty = false) ∧ dbm = db4))) ∧
    (∀ db : Db, ∃ db2, execBatch db bootstrapBatch = .ok db2 ∧
      (∀ n ∈ bootstrapTables, db2.hasTable n = true) ∧
      (∀ j, j ∈ ["idx_tasks_project_id", "idx_tasks_due_at",
        "idx_tasks_completed_at", "idx_templates_name", "idx_templates_created"] →
        j ∈ db2.indexes)) ∧
    (runMigrations emptyFs emptyDb = .ok bootDb ∧
      (∀ n ∈ bootstrapTables, bootDb.hasTable n = true ∧ bootDb.rowsOf n = []) ∧
      bootDb.rowIds "migrations" = []) := by
  refine ⟨fun fs db0 dbm h => runMigrations_split h, ?_, rfl, by decide, by decide⟩
  intro db
  obtain ⟨db2, hrun, hall, _, _, _, hidx, _⟩ := bootstrapBatch_post db
  exact ⟨db2, hrun, hall, hidx⟩

/-- C6 (witness): the gating disjunction at the concrete fresh empty file. -/
theorem c6_bootstrap_gating_witness :
    ∃ db2 db3 db4,
      applyLoop emptyFs.contents (appliedList (ensureLedgerTable emptyDb))
        (ensureLedgerTable emptyDb) (migrationFiles emptyFs) = (db2, none) ∧
      reconAttachments db2 = .ok db3 ∧
      (if db3.hasTable "tasks" then reconTasks db3 else .ok db3) = .ok db4 ∧
      ((db3.hasTable "tasks" = false ∧
          (appliedList (ensureLedgerTable emptyDb)).isEmpty = true ∧
          execBatch db4 bootstrapBatch = .ok bootDb) ∨
        ((db3.hasTable "tasks" = true ∨
          (appliedList (ensureLedgerTable emptyDb)).isEmpty = false) ∧
          bootDb = db4)) :=
  c6_bootstrap_gating.1 emptyFs emptyDb bootDb rfl

/-! ### Claim C7 -/

theorem nodup_append_filter (old cs : List String) (hold : old.Nodup)
    (hcs : cs.Nodup) :
    (old ++ cs.filter (fun c => !old.contains c)).Nodup := by
  refine List.Nodup.append hold (hcs.filter _) ?_
  intro a ha hb
  have hf := List.of_mem_filter hb
  simp at hf
  exact hf ha

theorem execUnit_0004 (db : Db) (body : List Stmt) :
    execUnit db "0004_add_recurrence.sql" body = execRecurrenceUnit db := rfl

theorem execUnit_0008 (db : Db) (body : List Stmt) :
    execUnit db "0008_add_attachment_size.sql" body = execAttachmentSizeUnit db :=
  rfl

theorem execUnit_0006 (db : Db) (body : List Stmt) :
    execUnit db "0006_add_notification_preferences.sql" body
      = execNotificationUnit db := rfl

/-- C7: each column-guarded unit snapshots the target table's columns and
adds exactly the guarded columns missing from that snapshot — for any file
body, 0004 on `tasks` with the three recurrence columns, 0008 on
`attachments` with `size`, 0006 on `tasks` with the two notification columns
followed by the `notification_schedule` table and its indexes; each
succeeds, appends only the missing guarded columns (preserving
duplicate-freedom, so an existing column is never duplicated), and when
every guarded column is already present 0004 and 0008 return the database
unchanged. -/
theorem c7_column_guarded_units :
    (∀ (db : Db) (body : List Stmt), db.hasTable "tasks" = true →
      ∃ db2, execUnit db "0004_add_recurrence.sql" body = .ok db2 ∧
        db2.colsOf "tasks" = db.colsOf "tasks" ++
          ["recurrence_type", "recurrence_interval", "recurrence_parent_id"].filter
            (fun c => !(db.colsOf "tasks").contains c) ∧
        ((db.colsOf "tasks").Nodup → (db2.colsOf "tasks").Nodup) ∧
        (∀ m, db2.hasTable m = db.hasTable m) ∧
        ((∀ c ∈ ["recurrence_type", "recurrence_interval", "recurrence_parent_id"],
            (db.colsOf "tasks").contains c = true) → db2 = db)) ∧
    (∀ (db : Db) (body : List Stmt), db.hasTable "attachments" = true →
      ∃ db2, execUnit db "0008_add_attachment_size.sql" body = .ok db2 ∧
        db2.colsOf "attachments" = db.colsOf "attachments" ++
          ["size"].filter (fun c => !(db.colsOf "attachments").contains c) ∧
        ((db.colsOf "attachments").Nodup → (db2.colsOf "attachments").Nodup) ∧
        ((db.colsOf "attachments").contains "size" = true → db2 = db)) ∧
    (∀ (db : Db) (body : List Stmt), db.hasTable "tasks" = true →
      ∃ db2, execUnit db "0006_add_notification_preferences.sql" body = .ok db2 ∧
        db2.colsOf "tasks" = db.colsOf "tasks" ++
          ["reminder_minutes_before", "notification_repeat"].filter
            (fun c => !(db.colsOf "tasks").contains c) ∧
        ((db.colsOf "tasks").Nodup → (db2.colsOf "tasks").Nodup) ∧
        db2.hasTable "notification_schedule" = true) := by
  refine ⟨?_, ?_, ?_⟩
  · intro db body hT
    obtain ⟨db2, hrun, hcols, hht, _, _, _⟩ :=
      guardedAddCols_post (db.colsOf "tasks") "tasks"
        ["recurrence_type", "recurrence_interval", "recurrence_parent_id"] db hT
        (fun c _ hc => hc) (by decide)
    refine ⟨db2, ?_, hcols, ?_, hht, ?_⟩
    · rw [execUnit_0004]
      exact hrun
    · intro hnd
      rw [hcols]
      exact nodup_append_filter _ _ hnd (by decide)
    · intro hall
      have hid := guardedAddCols_id (db.colsOf "tasks") "tasks"
        ["recurrence_type", "recurrence_interval", "recurrence_parent_id"] db hall
      exact Except.ok.inj (hrun.symm.trans hid)
  · intro db body hT
    obtain ⟨db2, hrun, hcols, _, _, _, _⟩ :=
      guardedAddCols_post (db.colsOf "attachments") "attachments" ["size"] db hT
        (fun c _ hc => hc) (by decide)
    refine ⟨db2, ?_, hcols, ?_, ?_⟩
    · rw [execUnit_0008]
      exact hrun
    · intro hnd
      rw [hcols]
      exact nodup_append_filter _ _ hnd (by decide)
    · intro hall
      have hid := guardedAddCols_id (db.colsOf "attachments") "attachments"
        ["size"] db (by intro c hc; simp at hc; subst hc; exact hall)
      exact Except.ok.inj (hrun.symm.trans hid)
  · intro db body hT
    obtain ⟨d1, hrun1, hcols1, hht1, _, _, _⟩ :=
      guardedAddCols_post (db.colsOf "tasks") "tasks"
        ["reminder_minutes_before", "notification_repeat"] db hT
        (fun c _ hc => hc) (by decide)
    obtain ⟨db2, hrun2, hns, _, hpres, _⟩ := notificationScheduleBatch_post d1
    have hT1 : d1.hasTable "tasks" = true := by
      rw [hht1]
      exact hT
    have hrun : execUnit db "0006_add_notification_preferences.sql" body
        = .ok db2 := by
      rw [execUnit_0006]
      unfold execNotificationUnit
      rw [hrun1, exceptOkBind]
      exact hrun2
    refine ⟨db2, hrun, ?_, ?_, hns⟩
    · rw [(hpres "tasks" hT1).1, hcols1]
    · intro hnd
      rw [(hpres "tasks" hT1).1, hcols1]
      exact nodup_append_filter _ _ hnd (by decide)

/-- A database with bare `tasks` and `attachments` tables for exercising the
column-guarded units. -/
def c7Db : Db :=
  ⟨[⟨"tasks", ["id"], []⟩, ⟨"attachments", ["id"], []⟩], []⟩

/-- C7 (witness): the three column-guarded units applied to a concrete
database with bare target tables. -/
theorem c7_column_guarded_units_witness :
    (∃ db2, execUnit c7Db "0004_add_recurrence.sql" [] = .ok db2 ∧
      db2.colsOf "tasks" = c7Db.colsOf "tasks" ++
        ["recurrence_type", "recurrence_interval", "recurrence_parent_id"].filter
          (fun c => !(c7Db.colsOf "tasks").contains c) ∧
      ((c7Db.colsOf "tasks").Nodup → (db2.colsOf "tasks").Nodup) ∧
      (∀ m, db2.hasTable m = c7Db.hasTable m) ∧
      ((∀ c ∈ ["recurrence_type", "recurrence_interval", "recurrence_parent_id"],
          (c7Db.colsOf "tasks").contains c = true) → db2 = c7Db)) ∧
    (∃ db2, execUnit c7Db "0008_add_attachment_size.sql" [] = .ok db2 ∧
      db2.colsOf "attachments" = c7Db.colsOf "attachments" ++
        ["size"].filter (fun c => !(c7Db.colsOf "attachments").contains c) ∧
      ((c7Db.colsOf "attachments").Nodup → (db2.colsOf "attachments").Nodup) ∧
      ((c7Db.colsOf "attachments").contains "size" = true → db2 = c7Db)) ∧
    (∃ db2, execUnit c7Db "0006_add_notification_preferences.sql" [] = .ok db2 ∧
      db2.colsOf "tasks" = c7Db.colsOf "tasks" ++
        ["reminder_minutes_before", "notification_repeat"].filter
          (fun c => !(c7Db.colsOf "tasks").contains c) ∧
      ((c7Db.colsOf "tasks").Nodup → (db2.colsOf "tasks").Nodup) ∧
      db2.hasTable "notification_schedule" = true) :=
  ⟨c7_column_guarded_units.1 c7Db [] (by decide),
   c7_column_guarded_units.2.1 c7Db [] (by decide),
   c7_column_guarded_units.2.2 c7Db [] (by decide)⟩

/-! ### Claim C8 -/

/-- C8: the seeder always succeeds; it is the identity exactly when the
`tasks` table is absent or non-empty; when `tasks` exists and is empty it
inserts exactly the five fixed example rows into `tasks` (one batch,
committed together as the single `.ok` result) touching no other table and
no schema; and a second seeding of the result is again the identity, so
seeding twice never duplicates the example rows. -/
theorem c8_seeder (db : Db) :
    ∃ db2, seedInitialData db = .ok db2 ∧
      (db.hasTable "tasks" = false ∨ 0 < (db.rowsOf "tasks").length → db2 = db) ∧
      (db.hasTable "tasks" = true → (db.rowsOf "tasks").length = 0 →
        db2.rowsOf "tasks" = List.replicate 5 none ∧
        (∀ m, db2.hasTable m = db.hasTable m) ∧
        (∀ m, db2.colsOf m = db.colsOf m) ∧
        (∀ m, m ≠ "tasks" → db2.rowsOf m = db.rowsOf m)) ∧
      seedInitialData db2 = .ok db2 := by
  obtain ⟨db2, hrun, sht, scols, srne, spos, sid, sle⟩ := seed_post db
  refine ⟨db2, hrun, sid, ?_, ?_⟩
  · intro hT hlen
    have hrun5 : seedInitialData db
        = execBatch db (List.replicate 5 (.insertRow "tasks" none)) := by
      unfold seedInitialData
      rw [hT, decide_eq_false (by omega)]
      rfl
    obtain ⟨d5, h5, hht5, hcols5, hrows5, hrne5, _⟩ := seedRows_post 5 db hT
    have hdb2 : db2 = d5 := Except.ok.inj ((hrun.symm.trans hrun5).trans h5)
    subst hdb2
    refine ⟨?_, hht5, hcols5, hrne5⟩
    rw [hrows5, List.length_eq_zero.mp hlen]
    rfl
  · cases hT : db.hasTable "tasks" with
    | false =>
      rw [sid (Or.inl hT)]
      exact seed_of_missing db hT
    | true =>
      exact seed_of_nonempty db2 (by rw [sht]; exact hT) (spos hT)

/-- A database whose `tasks` table exists and holds zero rows. -/
def c8Db : Db := ⟨[⟨"tasks", ["id", "title"], []⟩], []⟩

/-- C8 (witness): the seeder at a concrete empty `tasks` table. -/
theorem c8_seeder_witness :
    ∃ db2, seedInitialData c8Db = .ok db2 ∧
      (c8Db.hasTable "tasks" = false ∨ 0 < (c8Db.rowsOf "tasks").length →
        db2 = c8Db) ∧
      (c8Db.hasTable "tasks" = true → (c8Db.rowsOf "tasks").length = 0 →
        db2.rowsOf "tasks" = List.replicate 5 none ∧
        (∀ m, db2.hasTable m = c8Db.hasTable m) ∧
        (∀ m, db2.colsOf m = c8Db.colsOf m) ∧
        (∀ m, m ≠ "tasks" → db2.rowsOf m = c8Db.rowsOf m)) ∧
      seedInitialData db2 = .ok db2 :=
  c8_seeder c8Db

/-! ### Claim C9 -/

/-- C9: the catalog is the set of `.sql` files of the migrations directory
sorted ascending in the lexical string order; the applied snapshot is
exactly the set of names recorded in the ledger; and the pending loop's
behaviour on the catalog equals its behaviour on the catalog with the
applied names removed, in catalog order — the engine attempts exactly the
catalog names minus the ledger names, in ascending lexical order. -/
theorem c9_pending_order (fs : Fs) (applied : List String) (db d : Db)
    (contents : String → Option (List Stmt)) :
    List.Sorted (fun a b : String => a ≤ b) (migrationFiles fs) ∧
    (migrationFiles fs).Perm (fs.files.filter hasSqlExt) ∧
    (∀ f, f ∈ migrationFiles fs ↔ f ∈ fs.files ∧ hasSqlExt f = true) ∧
    (∀ f, f ∈ appliedList d ↔ f ∈ d.rowIds "migrations") ∧
    applyLoop contents applied db (migrationFiles fs)
      = applyLoop contents applied db
        ((migrationFiles fs).filter (fun f => !applied.contains f)) := by
  refine ⟨?_, ?_, ?_, fun f => mem_appliedList, ?_⟩
  · have hs := List.sorted_insertionSort strLeRel (fs.files.filter hasSqlExt)
    exact List.Pairwise.imp (fun h => (strLe_iff_le _ _).mp h) hs
  · exact List.perm_insertionSort strLeRel (fs.files.filter hasSqlExt)
  · intro f
    unfold migrationFiles
    rw [List.Perm.mem_iff (List.perm_insertionSort strLeRel _)]
    exact List.mem_filter
  · exact applyLoop_filter_applied (migrationFiles fs) db

/-! ### Claim C10 -/

/-- C10: when the `tasks` table is absent at the reconciler's check point,
the whole tasks-gated reconciler (critical columns, `task_templates`
fallback, gamification tables with the `default` user row) is skipped —
that stage returns its input unchanged — and the bootstrap fallback never
creates `user_progress`, `badges` or `xp_history`, so any of those tables
absent before the run is still absent after it; concretely, one full
startup run on a fresh empty database with an empty catalog succeeds and
leaves all three gamification tables absent. -/
theorem c10_fresh_no_gamification :
    (∀ (fs : Fs) (db0 dbm : Db), runMigrations fs db0 = .ok dbm →
      ∃ db2 db3,
        applyLoop fs.contents (appliedList (ensureLedgerTable db0))
          (ensureLedgerTable db0) (migrationFiles fs) = (db2, none) ∧
        reconAttachments db2 = .ok db3 ∧
        (db3.hasTable "tasks" = false →
          (if db3.hasTable "tasks" then reconTasks db3 else .ok db3) = .ok db3 ∧
          ∀ g, g ∈ ["user_progress", "badges", "xp_history"] →
            db3.hasTable g = false → dbm.hasTable g = false)) ∧
    (runMigrations emptyFs emptyDb = .ok bootDb ∧
      bootDb.hasTable "user_progress" = false ∧
      bootDb.hasTable "badges" = false ∧
      bootDb.hasTable "xp_history" = false ∧
      initDb emptyFs emptyDb = .ok run1Db ∧
      run1Db.hasTable "user_progress" = false ∧
      run1Db.hasTable "badges" = false ∧
      run1Db.hasTable "xp_history" = false) := by
  refine ⟨?_, rfl, by decide, by decide, by decide, rfl, by decide, by decide,
    by decide⟩
  intro fs db0 dbm h
  obtain ⟨db2, db3, db4, hloop, hatt, hrt, hboot⟩ := runMigrations_split h
  refine ⟨db2, db3, hloop, hatt, ?_⟩
  intro hT
  have h43 : db3 = db4 := by
    rw [hT] at hrt
    simp at hrt
    exact hrt
  constructor
  · rw [hT]
    simp
  · intro g hg hgf
    have hgb : g ∉ bootstrapTables := by
      have hg3 : g = "user_progress" ∨ g = "badges" ∨ g = "xp_history" := by
        simpa using hg
      rcases hg3 with h1 | h1 | h1 <;> subst h1 <;> decide
    rcases hboot with ⟨_, _, hb⟩ | ⟨_, heq⟩
    · obtain ⟨d2, hrun, _, hback, _, _, _, _⟩ := bootstrapBatch_post db4
      have hdm : dbm = d2 := Except.ok.inj (hb.symm.trans hrun)
      subst hdm
      cases hx : dbm.hasTable g with
      | false => rfl
      | true =>
        rcases hback g hx with h4 | h4
        · rw [← h43] at h4
          rw [h4] at hgf
          cases hgf
        · exact absurd h4 hgb
    · rw [heq, ← h43]
      exact hgf

/-- C10 (witness): the skip-and-absence fact applied to the concrete fresh
empty file. -/
theorem c10_fresh_no_gamification_witness :
    ∃ db2 db3,
      applyLoop emptyFs.contents (appliedList (ensureLedgerTable emptyDb))
        (ensureLedgerTable emptyDb) (migrationFiles emptyFs) = (db2, none) ∧
      reconAttachments db2 = .ok db3 ∧
      (db3.hasTable "tasks" = false →
        (if db3.hasTable "tasks" then reconTasks db3 else .ok db3) = .ok db3 ∧
        ∀ g, g ∈ ["user_progress", "badges", "xp_history"] →
          db3.hasTable g = false → bootDb.hasTable g = false) :=
  c10_fresh_no_gamification.1 emptyFs emptyDb bootDb rfl

end TodoDb
